import Mathlib

/-!
Verification of the lfest-rs matching, margin and settlement engine.

A shallow embedding of the exchange simulator: `src/exchange.rs` and
`src/market_update/trade_update.rs` are translated definition by definition.
Fixed-point currency amounts (`Mon<D>`-backed base and quote currencies) are
modelled as exact rationals `ℚ`; overflow is a programming error in the source
and is out of the model.  Fallible Rust methods returning `Result` become
`Except Error`; Rust panics (`expect`, `assert!`, unreachable states) become
`Option.none` at the outermost layer.  Components of the repository whose
source is not part of the snapshot (filters, balances, position, order margin,
rate limiter, risk engine, market state) are modelled from the specification
and say so in their doc comments.
-/

namespace Lfest

/-- Order side: `{Buy, Sell}` (source `Side`). -/
inductive Side where
  | buy
  | sell
deriving DecidableEq, Repr

/-- `Side::inverted` flips the side. -/
def Side.inverted : Side → Side
  | .buy => .sell
  | .sell => .buy

/-- Re-pricing policy of a limit order; the source enum `RePricing` has the
single variant `GoodTilCrossing`. -/
inductive RePricing where
  | goodTilCrossing
deriving DecidableEq, Repr

/-- A pending (resting) limit order: source `LimitOrder<..., Pending>` with its
`ExchangeOrderMeta` (order id and submit timestamp) inlined.  The user order id
is instantiated at `()` and omitted. -/
structure PendingLimitOrder where
  oid : Nat
  submitTs : Int
  side : Side
  limitPrice : ℚ
  totalQuantity : ℚ
  remainingQuantity : ℚ
  rePricing : RePricing
deriving DecidableEq, Repr

/-- A taker trade that consumes liquidity in the book (source `Trade`). -/
structure Trade where
  timestampExchangeNs : Int
  price : ℚ
  quantity : ℚ
  side : Side
deriving DecidableEq, Repr

/-- Source `Trade::fills_order`: a trade fills a resting order only on the
opposite side and only when the trade price strictly crosses the limit price. -/
def Trade.fills_order (t : Trade) (o : PendingLimitOrder) : Bool :=
  match o.side with
  | .buy => decide (t.price < o.limitPrice) && decide (t.side = Side.sell)
  | .sell => decide (t.price > o.limitPrice) && decide (t.side = Side.buy)

/-!
Kernel-computable arithmetic on `ℚ`.  The `Rat` field operations of this
toolchain are marked irreducible, which blocks `decide`/`rfl` evaluation of
concrete states; these wrappers go through `mkRat` (which reduces) and are
proved equal to the standard operations.
-/

/-- Kernel-computable addition on `ℚ`. -/
def qadd (a b : ℚ) : ℚ := mkRat (a.num * b.den + b.num * a.den) (a.den * b.den)

/-- Kernel-computable subtraction on `ℚ`. -/
def qsub (a b : ℚ) : ℚ := mkRat (a.num * b.den - b.num * a.den) (a.den * b.den)

/-- Kernel-computable multiplication on `ℚ`. -/
def qmul (a b : ℚ) : ℚ := mkRat (a.num * b.num) (a.den * b.den)

/-- Kernel-computable division on `ℚ` (division by zero yields zero). -/
def qdiv (a b : ℚ) : ℚ :=
  mkRat (a.num * b.den * (if b.num < 0 then -1 else 1)) (a.den * b.num.natAbs)

/-- Kernel-computable negation on `ℚ`. -/
def qneg (a : ℚ) : ℚ := mkRat (-a.num) a.den

/-- Kernel-computable minimum on `ℚ` (source `utils::min`). -/
def minQ (a b : ℚ) : ℚ := if b < a then b else a

/-- Kernel-computable maximum on `ℚ`. -/
def maxQ (a b : ℚ) : ℚ := if a < b then b else a

/-- Source `Trade::limit_order_filled` (`MarketUpdate` impl for `Trade`).
The Rust method mutates `self.quantity`; the returned `Trade` is the mutated
receiver.  The second component of the `Option` is the `Exhausted` flag. -/
def Trade.limit_order_filled (t : Trade) (o : PendingLimitOrder) :
    Trade × Option (ℚ × Bool) :=
  if t.fills_order o then
    let filledQty := minQ t.quantity o.remainingQuantity
    let t2 : Trade := { t with quantity := qsub t.quantity filledQty }
    (t2, some (filledQty, decide (t2.quantity ≤ 0)))
  else
    (t, none)

/-- Source `Trade::can_fill_bids`: only a `Sell` trade can fill resting bids. -/
def Trade.can_fill_bids (t : Trade) : Bool :=
  match t.side with
  | .buy => false
  | .sell => true

/-- Source `Trade::can_fill_asks`: only a `Buy` trade can fill resting asks. -/
def Trade.can_fill_asks (t : Trade) : Bool :=
  match t.side with
  | .buy => true
  | .sell => false

/-- Market state: bid, ask, last trade price and current timestamp
(spec §4.2; the `market_state.rs` source is not in the snapshot). -/
structure MarketState where
  bid : ℚ
  ask : ℚ
  lastTradePrice : ℚ
  currentTsNs : Int
deriving DecidableEq, Repr

/-- Modelled from the spec: §4.2, `mid_price = (bid + ask) / 2`. -/
def MarketState.midPrice (ms : MarketState) : ℚ := qdiv (qadd ms.bid ms.ask) 2

/-- The market-update variants the exchange supports: `Bba { bid, ask, ts }`
and `Trade` (source `market_update` module; the `Bba` file is not in the
snapshot and is modelled from the spec §3). -/
inductive MarketUpdateV where
  | bba (bid ask : ℚ) (ts : Int)
  | trade (t : Trade)
deriving DecidableEq, Repr

/-- `CAN_FILL_LIMIT_ORDERS`: `false` for `Bba`, `true` for `Trade`. -/
def MarketUpdateV.canFillLimitOrders : MarketUpdateV → Bool
  | .bba .. => false
  | .trade _ => true

/-- `timestamp_exchange_ns` of a market update. -/
def MarketUpdateV.timestampExchangeNs : MarketUpdateV → Int
  | .bba _ _ ts => ts
  | .trade t => t.timestampExchangeNs

/-- Modelled from the spec: §4.2 `MarketState::update_state` applies the
update's `update_market_state` (source `Trade::update_market_state` sets the
last trade price; `Bba` sets the quotes) and records the update's exchange
timestamp.  Price-filter validation of the update is a non-mutating check and
is kept separate (`Trade.validate_market_update`). -/
def MarketState.update_state (ms : MarketState) (u : MarketUpdateV) : MarketState :=
  match u with
  | .bba b a ts => { ms with bid := b, ask := a, currentTsNs := ts }
  | .trade t =>
    { ms with lastTradePrice := t.price, currentTsNs := t.timestampExchangeNs }

/-- Error taxonomy across the API (spec §7); `GoodTillCrossingRejected`
carries the limit price and the away-side quotation. -/
inductive Error where
  | priceTooLow
  | priceTooHigh
  | priceNotMultipleOfTick
  | priceOutOfBand
  | qtyTooLow
  | qtyTooHigh
  | qtyNotMultipleOfStep
  | goodTillCrossingRejected (limitPrice awayPrice : ℚ)
  | maxActiveOrders
  | notEnoughAvailableBalance
  | liquidation
  | orderIdNotFound (oid : Nat)
  | orderNoLongerActive
  | amendQtyAlreadyFilled
  | rateLimitExceeded
deriving DecidableEq, Repr

/-- `PriceFilter` parameters (spec §4.1; `order_filters.rs` is not in the
snapshot). -/
structure PriceFilter where
  minPrice : ℚ
  maxPrice : ℚ
  tickSize : ℚ
  multiplierUp : ℚ
  multiplierDown : ℚ
deriving DecidableEq, Repr

/-- `QuantityFilter` parameters (spec §4.1). -/
structure QuantityFilter where
  minQty : ℚ
  maxQty : ℚ
  stepSize : ℚ
deriving DecidableEq, Repr

/-- `x` is an integer multiple of `step` (a zero step imposes no constraint). -/
def isMultipleOf (x step : ℚ) : Bool :=
  if step = 0 then true else decide ((qdiv x step).den = 1)

/-- Modelled from the spec: §4.1 quantity validation against min, max and step
size. -/
def QuantityFilter.validate_order_quantity (f : QuantityFilter) (q : ℚ) :
    Except Error Unit :=
  if q < f.minQty then .error .qtyTooLow
  else if f.maxQty < q then .error .qtyTooHigh
  else if !isMultipleOf q f.stepSize then .error .qtyNotMultipleOfStep
  else .ok ()

/-- Modelled from the spec: §4.1 limit-price validation: bounds, tick size and
the multiplier band around the mid price. -/
def PriceFilter.validate_limit_price (f : PriceFilter) (p mid : ℚ) :
    Except Error Unit :=
  if p < f.minPrice then .error .priceTooLow
  else if f.maxPrice < p then .error .priceTooHigh
  else if !isMultipleOf p f.tickSize then .error .priceNotMultipleOfTick
  else if qmul mid f.multiplierUp < p then .error .priceOutOfBand
  else if p < qmul mid f.multiplierDown then .error .priceOutOfBand
  else .ok ()

/-- Source `Trade::validate_market_update`: min price, max price and tick-size
checks on the trade price. -/
def Trade.validate_market_update (t : Trade) (f : PriceFilter) :
    Except Error Unit :=
  if t.price < f.minPrice then .error .priceTooLow
  else if f.maxPrice < t.price then .error .priceTooHigh
  else if !isMultipleOf t.price f.tickSize then .error .priceNotMultipleOfTick
  else .ok ()

/-- Wallet partitions (spec §4.6; `balances.rs` is not in the snapshot). -/
structure Balances where
  available : ℚ
  positionMargin : ℚ
  orderMargin : ℚ
  feesPaid : ℚ
  realizedPnl : ℚ
deriving DecidableEq, Repr

/-- Modelled from the spec: fresh balances hold the whole starting wallet as
`available`. -/
def Balances.new (wallet : ℚ) : Balances :=
  { available := wallet, positionMargin := 0, orderMargin := 0,
    feesPaid := 0, realizedPnl := 0 }

/-- Modelled from the spec: §4.6 `try_reserve_order_margin`. -/
def Balances.try_reserve_order_margin (b : Balances) (amt : ℚ) :
    Balances × Bool :=
  if amt ≤ b.available then
    ({ b with available := qsub b.available amt,
              orderMargin := qadd b.orderMargin amt }, true)
  else (b, false)

/-- Modelled from the spec: §4.6 `free_order_margin`. -/
def Balances.free_order_margin (b : Balances) (amt : ℚ) : Balances :=
  { b with orderMargin := qsub b.orderMargin amt,
           available := qadd b.available amt }

/-- Modelled from the spec: §4.6 `try_reserve_position_margin`. -/
def Balances.try_reserve_position_margin (b : Balances) (amt : ℚ) :
    Balances × Bool :=
  if amt ≤ b.available then
    ({ b with available := qsub b.available amt,
              positionMargin := qadd b.positionMargin amt }, true)
  else (b, false)

/-- Modelled from the spec: §4.6 `free_position_margin`. -/
def Balances.free_position_margin (b : Balances) (amt : ℚ) : Balances :=
  { b with positionMargin := qsub b.positionMargin amt,
           available := qadd b.available amt }

/-- Modelled from the spec: §4.6 `account_for_fee` deducts the fee from
`available` and accumulates `fees_paid`. -/
def Balances.account_for_fee (b : Balances) (fee : ℚ) : Balances :=
  { b with available := qsub b.available fee,
           feesPaid := qadd b.feesPaid fee }

/-- Modelled from the spec: §4.6 `apply_realized_pnl` credits `available` and
accumulates `realized_pnl`. -/
def Balances.apply_realized_pnl (b : Balances) (d : ℚ) : Balances :=
  { b with available := qadd b.available d,
           realizedPnl := qadd b.realizedPnl d }

/-- Position of the account: `Neutral`, `Long { qty, entry }` or
`Short { qty, entry }` (spec §4.7; `position.rs` is not in the snapshot). -/
inductive Position where
  | neutral
  | long (qty entryPrice : ℚ)
  | short (qty entryPrice : ℚ)
deriving DecidableEq, Repr

/-- Modelled from the spec: the pure position component of §4.7
`Position::change`: open on Neutral, increase with weighted-average entry on
the same side, reduce / close / flip on the opposite side. -/
def Position.applyFill (pos : Position) (fq price : ℚ) (side : Side) :
    Position :=
  match pos, side with
  | .neutral, .buy => .long fq price
  | .neutral, .sell => .short fq price
  | .long q e, .buy =>
    .long (qadd q fq) (qdiv (qadd (qmul q e) (qmul fq price)) (qadd q fq))
  | .long q e, .sell =>
    if fq < q then .long (qsub q fq) e
    else if fq = q then .neutral
    else .short (qsub fq q) price
  | .short q e, .sell =>
    .short (qadd q fq) (qdiv (qadd (qmul q e) (qmul fq price)) (qadd q fq))
  | .short q e, .buy =>
    if fq < q then .short (qsub q fq) e
    else if fq = q then .neutral
    else .long (qsub fq q) price

/-- Modelled from the spec: the balances component of §4.7 `Position::change`:
reserve `qty·price·imr` when opening or increasing; on reduction release the
proportional position margin first and realize
`closed_qty · (fill_price − entry) · sign` into `available`; on a flip close
fully, then reserve for the residual.  A failed reservation is a panic
(`none`). -/
def Position.changeBalances (pos : Position) (fq price : ℚ) (side : Side)
    (bal : Balances) (imr : ℚ) : Option Balances :=
  match pos, side with
  | .neutral, .buy =>
    let r := bal.try_reserve_position_margin (qmul (qmul fq price) imr)
    if r.2 then some r.1 else none
  | .neutral, .sell =>
    let r := bal.try_reserve_position_margin (qmul (qmul fq price) imr)
    if r.2 then some r.1 else none
  | .long _ _, .buy =>
    let r := bal.try_reserve_position_margin (qmul (qmul fq price) imr)
    if r.2 then some r.1 else none
  | .long q e, .sell =>
    if fq ≤ q then
      let b2 := bal.free_position_margin (qmul (qmul fq e) imr)
      some (b2.apply_realized_pnl (qmul fq (qsub price e)))
    else
      let b2 := bal.free_position_margin (qmul (qmul q e) imr)
      let b3 := b2.apply_realized_pnl (qmul q (qsub price e))
      let r := b3.try_reserve_position_margin (qmul (qmul (qsub fq q) price) imr)
      if r.2 then some r.1 else none
  | .short _ _, .sell =>
    let r := bal.try_reserve_position_margin (qmul (qmul fq price) imr)
    if r.2 then some r.1 else none
  | .short q e, .buy =>
    if fq ≤ q then
      let b2 := bal.free_position_margin (qmul (qmul fq e) imr)
      some (b2.apply_realized_pnl (qmul fq (qsub e price)))
    else
      let b2 := bal.free_position_margin (qmul (qmul q e) imr)
      let b3 := b2.apply_realized_pnl (qmul q (qsub e price))
      let r := b3.try_reserve_position_margin (qmul (qmul (qsub fq q) price) imr)
      if r.2 then some r.1 else none

/-- Modelled from the spec: §4.7 `Position::change`, the only position
mutator: the new position is `applyFill`, the balances move per
`changeBalances`. -/
def Position.change (pos : Position) (fq price : ℚ) (side : Side)
    (bal : Balances) (imr : ℚ) : Option (Position × Balances) :=
  (pos.changeBalances fq price side bal imr).map
    (fun b => (pos.applyFill fq price side, b))

/-- Position margin required by a position at its entry price (spec §4.8). -/
def Position.requiredPositionMargin (pos : Position) (imr : ℚ) : ℚ :=
  match pos with
  | .neutral => 0
  | .long q e => qmul (qmul q e) imr
  | .short q e => qmul (qmul q e) imr

/-- Bid priority: higher limit price first, FIFO (ascending order id) within a
price level (spec §4.4). -/
def bidBefore (a b : PendingLimitOrder) : Bool :=
  decide (b.limitPrice < a.limitPrice) ||
    (decide (a.limitPrice = b.limitPrice) && decide (a.oid ≤ b.oid))

/-- Ask priority: lower limit price first, FIFO within a price level. -/
def askBefore (a b : PendingLimitOrder) : Bool :=
  decide (a.limitPrice < b.limitPrice) ||
    (decide (a.limitPrice = b.limitPrice) && decide (a.oid ≤ b.oid))

/-- Pick the best element of a list under a priority predicate. -/
def pickBest (before : PendingLimitOrder → PendingLimitOrder → Bool) :
    List PendingLimitOrder → Option PendingLimitOrder
  | [] => none
  | o :: os =>
    match pickBest before os with
    | none => some o
    | some b => if before o b then some o else some b

/-- Insert into a list sorted by a priority predicate. -/
def insertBy (before : PendingLimitOrder → PendingLimitOrder → Bool)
    (a : PendingLimitOrder) : List PendingLimitOrder → List PendingLimitOrder
  | [] => [a]
  | b :: bs => if before a b then a :: b :: bs else b :: insertBy before a bs

/-- Insertion sort by a priority predicate. -/
def sortBy (before : PendingLimitOrder → PendingLimitOrder → Bool) :
    List PendingLimitOrder → List PendingLimitOrder
  | [] => []
  | a :: as => insertBy before a (sortBy before as)

/-- Remove the first order with the given order id, returning it and the rest. -/
def removeFirstById (oid : Nat) :
    List PendingLimitOrder → Option (PendingLimitOrder × List PendingLimitOrder)
  | [] => none
  | o :: os =>
    if o.oid = oid then some (o, os)
    else
      match removeFirstById oid os with
      | none => none
      | some (r, os2) => some (r, o :: os2)

/-- Replace the stored order carrying `o.oid` by `o` (in-place residual update
of a partially filled order). -/
def replaceById (o : PendingLimitOrder) :
    List PendingLimitOrder → List PendingLimitOrder
  | [] => []
  | x :: xs => if x.oid = o.oid then o :: xs else x :: replaceById o xs

/-- Whether to cancel by `OrderId` or by `UserOrderId` (source `CancelBy`);
user order ids are instantiated at `()`, so only the `OrderId` variant is
inhabited. -/
inductive CancelBy where
  | orderId (oid : Nat)
deriving DecidableEq, Repr

/-- The order-margin state: the authoritative set of resting orders plus the
capacity bound (spec §4.5; `order_margin.rs` is not in the snapshot).  The
exchange's `active_limit_orders()` reads through to this set. -/
structure OrderMargin where
  activeOrders : List PendingLimitOrder
  maxActive : Nat
deriving DecidableEq, Repr

/-- The resting buy orders. -/
def OrderMargin.bids (om : OrderMargin) : List PendingLimitOrder :=
  om.activeOrders.filter (fun o => decide (o.side = Side.buy))

/-- The resting sell orders. -/
def OrderMargin.asks (om : OrderMargin) : List PendingLimitOrder :=
  om.activeOrders.filter (fun o => decide (o.side = Side.sell))

/-- `peek_best_bid`: highest-priced resting buy, FIFO within the level. -/
def OrderMargin.peek_best_bid (om : OrderMargin) : Option PendingLimitOrder :=
  pickBest bidBefore om.bids

/-- `peek_best_ask`: lowest-priced resting sell, FIFO within the level. -/
def OrderMargin.peek_best_ask (om : OrderMargin) : Option PendingLimitOrder :=
  pickBest askBefore om.asks

/-- `num_active` resting orders. -/
def OrderMargin.num_active (om : OrderMargin) : Nat :=
  om.activeOrders.length

/-- `get_by_id(oid, side)` lookup of an active order. -/
def OrderMargin.get_by_id (om : OrderMargin) (oid : Nat) (side : Side) :
    Option PendingLimitOrder :=
  om.activeOrders.find? (fun o => decide (o.oid = oid) && decide (o.side = side))

/-- Notional of the quantity in excess of `offset`, walking orders in
descending aggressiveness (spec §4.5 steps 2–3). -/
def excessNotional : List PendingLimitOrder → ℚ → ℚ
  | [], _ => 0
  | o :: os, offset =>
    if o.remainingQuantity ≤ offset then
      excessNotional os (qsub offset o.remainingQuantity)
    else
      qadd (qmul (qsub o.remainingQuantity offset) o.limitPrice)
        (excessNotional os 0)

/-- Modelled from the spec: §4.5 position-aware order-margin requirement: the
notional of each side's excess beyond the offsetting position, times the
initial margin requirement, dominant side only. -/
def OrderMargin.order_margin (om : OrderMargin) (imr : ℚ) (pos : Position) : ℚ :=
  let buyOffset : ℚ := match pos with | .short q _ => q | _ => 0
  let sellOffset : ℚ := match pos with | .long q _ => q | _ => 0
  maxQ (qmul (excessNotional (sortBy bidBefore om.bids) buyOffset) imr)
    (qmul (excessNotional (sortBy askBefore om.asks) sellOffset) imr)

/-- Bring `balances.order_margin` to the freshly recomputed requirement,
freeing or reserving the delta; a failed reservation yields `none`. -/
def rebalanceOrderMargin (bal : Balances) (newReq : ℚ) : Option Balances :=
  if newReq < bal.orderMargin then
    some (bal.free_order_margin (qsub bal.orderMargin newReq))
  else if newReq = bal.orderMargin then some bal
  else
    let r := bal.try_reserve_order_margin (qsub newReq bal.orderMargin)
    if r.2 then some r.1 else none

/-- Modelled from the spec: §4.5 `try_insert` (capacity per §4.4): recompute
the requirement including the new order and move the delta against balances;
a failed reservation is `NotEnoughAvailableBalance`. -/
def OrderMargin.try_insert (om : OrderMargin) (o : PendingLimitOrder)
    (bal : Balances) (pos : Position) (imr : ℚ) :
    Except Error (OrderMargin × Balances) :=
  if om.maxActive ≤ om.num_active then .error .maxActiveOrders
  else
    let om2 : OrderMargin := { om with activeOrders := om.activeOrders ++ [o] }
    match rebalanceOrderMargin bal (om2.order_margin imr pos) with
    | some b2 => .ok (om2, b2)
    | none => .error .notEnoughAvailableBalance

/-- Modelled from the spec: §4.5 `remove`: drop the order, recompute the
requirement and move the delta. -/
def OrderMargin.remove (om : OrderMargin) (c : CancelBy) (bal : Balances)
    (pos : Position) (imr : ℚ) :
    Except Error (PendingLimitOrder × OrderMargin × Balances) :=
  match c with
  | .orderId oid =>
    match removeFirstById oid om.activeOrders with
    | none => .error (.orderIdNotFound oid)
    | some (o, rest) =>
      let om2 : OrderMargin := { om with activeOrders := rest }
      match rebalanceOrderMargin bal (om2.order_margin imr pos) with
      | some b2 => .ok (o, om2, b2)
      | none => .error .notEnoughAvailableBalance

/-- Modelled from the spec: §4.5 `fill_order`: update the in-place residual of
a partially filled order and rebalance the reservation. -/
def OrderMargin.fill_order (om : OrderMargin) (o : PendingLimitOrder)
    (bal : Balances) (pos : Position) (imr : ℚ) :
    Option (OrderMargin × Balances) :=
  let om2 : OrderMargin := { om with activeOrders := replaceById o om.activeOrders }
  (rebalanceOrderMargin bal (om2.order_margin imr pos)).map (fun b2 => (om2, b2))

/-- Leaky-bucket order rate limiter holding the most recent
`ordersPerSecond` admission timestamps, oldest first (spec §4.3;
`order_rate_limiter.rs` is not in the snapshot). -/
structure OrderRateLimiter where
  ordersPerSecond : Nat
  timestamps : List Int
deriving DecidableEq, Repr

/-- Modelled from the spec: §4.3 `aquire` (source spelling) admits while the
bucket has room, or when the oldest stored timestamp is older than one
second; admission records the timestamp. -/
def OrderRateLimiter.aquire (rl : OrderRateLimiter) (now : Int) :
    OrderRateLimiter × Bool :=
  if rl.timestamps.length < rl.ordersPerSecond then
    ({ rl with timestamps := rl.timestamps ++ [now] }, true)
  else
    match rl.timestamps with
    | [] => (rl, false)
    | oldest :: rest =>
      if oldest + 1000000000 < now then
        ({ rl with timestamps := rest ++ [now] }, true)
      else (rl, false)

/-- Modelled from the spec: §4.8 `check_market_order`: required margin of the
post-trade position compared against available plus releasable position
margin. -/
def check_market_order (pos : Position) (side : Side) (qty fillPrice : ℚ)
    (bal : Balances) (imr : ℚ) : Bool :=
  decide ((pos.applyFill qty fillPrice side).requiredPositionMargin imr ≤
    qadd bal.available bal.positionMargin)

/-- Modelled from the spec: §4.8 `check_limit_order`: the hypothetical
order-margin delta of adding the order must not exceed `available`. -/
def check_limit_order (pos : Position) (o : PendingLimitOrder)
    (available : ℚ) (om : OrderMargin) (imr : ℚ) : Bool :=
  let hypo : OrderMargin := { om with activeOrders := om.activeOrders ++ [o] }
  decide (qsub (hypo.order_margin imr pos) (om.order_margin imr pos) ≤ available)

/-- Modelled from the spec: §4.8 `check_maintenance_margin` with the mid price
as mark price: breach when position margin plus unrealized PnL falls below
`mmr · notional`; a Neutral position never breaches. -/
def check_maintenance_margin_breach (ms : MarketState) (pos : Position)
    (imr mmr : ℚ) : Bool :=
  match pos with
  | .neutral => false
  | .long q e =>
    decide (qadd (qmul (qmul q e) imr) (qmul q (qsub ms.midPrice e)) <
      qmul mmr (qmul q ms.midPrice))
  | .short q e =>
    decide (qadd (qmul (qmul q e) imr) (qmul q (qsub e ms.midPrice)) <
      qmul mmr (qmul q ms.midPrice))

/-- Immutable exchange configuration (spec §6). -/
structure Config where
  priceFilter : PriceFilter
  quantityFilter : QuantityFilter
  feeMaker : ℚ
  feeTaker : ℚ
  initMarginReq : ℚ
  maintMarginReq : ℚ
  maxNumOpenOrders : Nat
  ordersPerSecond : Nat
  startingWalletBalance : ℚ
deriving DecidableEq, Repr

/-- A user-created limit order (source `LimitOrder<..., NewOrder>`). -/
structure NewLimitOrder where
  side : Side
  limitPrice : ℚ
  totalQuantity : ℚ
  remainingQuantity : ℚ
  rePricing : RePricing
deriving DecidableEq, Repr

/-- Source `LimitOrder::new(side, limit_price, quantity)`: remaining equals
total, default re-pricing. -/
def NewLimitOrder.make (side : Side) (price qty : ℚ) : NewLimitOrder :=
  { side := side, limitPrice := price, totalQuantity := qty,
    remainingQuantity := qty, rePricing := .goodTilCrossing }

/-- `into_pending`: attach the `ExchangeOrderMeta` (order id, submit ts). -/
def NewLimitOrder.into_pending (o : NewLimitOrder) (oid : Nat) (ts : Int) :
    PendingLimitOrder :=
  { oid := oid, submitTs := ts, side := o.side, limitPrice := o.limitPrice,
    totalQuantity := o.totalQuantity, remainingQuantity := o.remainingQuantity,
    rePricing := o.rePricing }

/-- A filled market order (source `MarketOrder<..., Filled>`). -/
structure FilledMarketOrder where
  oid : Nat
  side : Side
  quantity : ℚ
  avgFillPrice : ℚ
  fillTs : Int
deriving DecidableEq, Repr

/-- Fill events surfaced by `update_state` (source `LimitOrderFill`). -/
inductive LimitOrderFill where
  | partlyFilled (filledQuantity fee : ℚ) (orderAfterFill : PendingLimitOrder)
  | fullyFilled (oid : Nat) (filledQuantity fee : ℚ)
deriving DecidableEq, Repr

/-- Modelled from the spec: §4.9 `fill_limit_order` event construction:
`FullyFilled` iff `filled_qty == order.remaining_qty`, else `PartiallyFilled`
with the updated `order_after_fill`. -/
def PendingLimitOrder.fill (o : PendingLimitOrder) (fq fee : ℚ) :
    PendingLimitOrder × LimitOrderFill :=
  let o2 : PendingLimitOrder :=
    { o with remainingQuantity := qsub o.remainingQuantity fq }
  if fq = o.remainingQuantity then (o2, .fullyFilled o.oid fq fee)
  else (o2, .partlyFilled fq fee o2)

/-- The exchange state (source `Exchange` struct). -/
structure Exchange where
  config : Config
  marketState : MarketState
  nextOrderId : Nat
  balances : Balances
  position : Position
  orderMargin : OrderMargin
  limitOrderUpdates : List LimitOrderFill
  orderRateLimiter : OrderRateLimiter
deriving DecidableEq, Repr

/-- Source `Exchange::new`. -/
def Exchange.new (cfg : Config) : Exchange :=
  { config := cfg
    marketState := { bid := 0, ask := 0, lastTradePrice := 0, currentTsNs := 0 }
    nextOrderId := 0
    balances := Balances.new cfg.startingWalletBalance
    position := .neutral
    orderMargin := { activeOrders := [], maxActive := cfg.maxNumOpenOrders }
    limitOrderUpdates := []
    orderRateLimiter := { ordersPerSecond := cfg.ordersPerSecond, timestamps := [] } }

/-- Source `Exchange::active_limit_orders` reads through to the order-margin
state. -/
def Exchange.activeLimitOrders (ex : Exchange) : List PendingLimitOrder :=
  ex.orderMargin.activeOrders

/-- Source `Exchange::settle_filled_market_order`: notional at the fill price,
taker fee, position change, fee accounting. -/
def Exchange.settle_filled_market_order (ex : Exchange)
    (o : FilledMarketOrder) : Option Exchange :=
  let fee := qmul (qmul o.quantity o.avgFillPrice) ex.config.feeTaker
  match ex.position.change o.quantity o.avgFillPrice o.side ex.balances
      ex.config.initMarginReq with
  | none => none
  | some pb =>
    some { ex with position := pb.1, balances := pb.2.account_for_fee fee }

/-- Source `Exchange::submit_market_order`: rate limit, quantity filter, id
assignment, fill price from the away-side quote, risk check, settlement.
`none` is a panic; on an error return the state mutated so far is kept. -/
def Exchange.submit_market_order (ex : Exchange) (side : Side) (qty : ℚ) :
    Option (Exchange × Except Error FilledMarketOrder) :=
  let ar := ex.orderRateLimiter.aquire ex.marketState.currentTsNs
  let ex1 := { ex with orderRateLimiter := ar.1 }
  if !ar.2 then some (ex1, .error .rateLimitExceeded)
  else
    match ex1.config.quantityFilter.validate_order_quantity qty with
    | .error e => some (ex1, .error e)
    | .ok _ =>
      let oid := ex1.nextOrderId
      let ex2 := { ex1 with nextOrderId := ex1.nextOrderId + 1 }
      let fillPrice := match side with
        | .buy => ex2.marketState.ask
        | .sell => ex2.marketState.bid
      if !check_market_order ex2.position side qty fillPrice ex2.balances
          ex2.config.initMarginReq then
        some (ex2, .error .notEnoughAvailableBalance)
      else
        let fo : FilledMarketOrder :=
          { oid := oid, side := side, quantity := qty, avgFillPrice := fillPrice,
            fillTs := ex2.marketState.currentTsNs }
        match ex2.settle_filled_market_order fo with
        | none => none
        | some ex3 => some (ex3, .ok fo)

/-- Source `Exchange::liquidate`: close the position with an internal market
order of the full quantity on the opposite side; a Neutral position or a
failed submission is a panic. -/
def Exchange.liquidate (ex : Exchange) : Option Exchange :=
  match ex.position with
  | .long q _ =>
    match ex.submit_market_order Side.sell q with
    | some (ex2, .ok _) => some ex2
    | _ => none
  | .short q _ =>
    match ex.submit_market_order Side.buy q with
    | some (ex2, .ok _) => some ex2
    | _ => none
  | .neutral => none

/-- Whether a limit order is marketable against the current quotes (source
`Exchange::submit_limit_order`, the `marketable` binding). -/
def isMarketable (ms : MarketState) (side : Side) (limitPrice : ℚ) : Bool :=
  match side with
  | .buy => decide (ms.ask ≤ limitPrice)
  | .sell => decide (limitPrice ≤ ms.bid)

/-- Source `Exchange::append_limit_order`: insert through the order-margin
state (the `marketable` flag is only traced in the source). -/
def Exchange.append_limit_order (ex : Exchange) (o : PendingLimitOrder) :
    Except Error Exchange :=
  match ex.orderMargin.try_insert o ex.balances ex.position
      ex.config.initMarginReq with
  | .error e => .error e
  | .ok omb => .ok { ex with orderMargin := omb.1, balances := omb.2 }

/-- Source `Exchange::submit_limit_order`: rate limit, quantity and price
filters, id assignment, risk check, marketability, `GoodTilCrossing`
rejection of marketable orders, insertion. -/
def Exchange.submit_limit_order (ex : Exchange) (o : NewLimitOrder) :
    Option (Exchange × Except Error PendingLimitOrder) :=
  let ar := ex.orderRateLimiter.aquire ex.marketState.currentTsNs
  let ex1 := { ex with orderRateLimiter := ar.1 }
  if !ar.2 then some (ex1, .error .rateLimitExceeded)
  else
    match ex1.config.quantityFilter.validate_order_quantity o.remainingQuantity with
    | .error e => some (ex1, .error e)
    | .ok _ =>
      match ex1.config.priceFilter.validate_limit_price o.limitPrice
          ex1.marketState.midPrice with
      | .error e => some (ex1, .error e)
      | .ok _ =>
        let ex2 := { ex1 with nextOrderId := ex1.nextOrderId + 1 }
        let p := o.into_pending ex1.nextOrderId ex1.marketState.currentTsNs
        if !check_limit_order ex2.position p ex2.balances.available
            ex2.orderMargin ex2.config.initMarginReq then
          some (ex2, .error .notEnoughAvailableBalance)
        else
          match p.rePricing with
          | .goodTilCrossing =>
            if isMarketable ex2.marketState p.side p.limitPrice then
              let away := match p.side with
                | .buy => ex2.marketState.ask
                | .sell => ex2.marketState.bid
              some (ex2, .error (.goodTillCrossingRejected p.limitPrice away))
            else
              match ex2.append_limit_order p with
              | .error e => some (ex2, .error e)
              | .ok ex3 => some (ex3, .ok p)

/-- Source `Exchange::cancel_limit_order`: rate limit, removal through the
order-margin state; the source release-asserts that an empty book implies
zero reserved order margin (`none` on violation). -/
def Exchange.cancel_limit_order (ex : Exchange) (c : CancelBy) :
    Option (Exchange × Except Error PendingLimitOrder) :=
  let ar := ex.orderRateLimiter.aquire ex.marketState.currentTsNs
  let ex1 := { ex with orderRateLimiter := ar.1 }
  if !ar.2 then some (ex1, .error .rateLimitExceeded)
  else
    match ex1.orderMargin.remove c ex1.balances ex1.position
        ex1.config.initMarginReq with
    | .error e => some (ex1, .error e)
    | .ok res =>
      let ex2 := { ex1 with orderMargin := res.2.1, balances := res.2.2 }
      if ex2.orderMargin.activeOrders.isEmpty &&
          !decide (ex2.balances.orderMargin = 0) then none
      else some (ex2, .ok res.1)

/-- Source `Exchange::amend_limit_order`: rate limit; lookup on the new
order's side; `OrderNoLongerActive` / `OrderIdNotFound` on a missing id;
delta-based leaves computation; cancel-then-resubmit. -/
def Exchange.amend_limit_order (ex : Exchange) (existingOid : Nat)
    (o : NewLimitOrder) : Option (Exchange × Except Error PendingLimitOrder) :=
  let ar := ex.orderRateLimiter.aquire ex.marketState.currentTsNs
  let ex1 := { ex with orderRateLimiter := ar.1 }
  if !ar.2 then some (ex1, .error .rateLimitExceeded)
  else
    match ex1.orderMargin.get_by_id existingOid o.side with
    | none =>
      if existingOid < ex1.nextOrderId then
        some (ex1, .error .orderNoLongerActive)
      else some (ex1, .error (.orderIdNotFound existingOid))
    | some existing =>
      let qtyDelta := qsub o.totalQuantity existing.totalQuantity
      let newLeaves := qadd existing.remainingQuantity qtyDelta
      if newLeaves ≤ 0 then
        match ex1.cancel_limit_order (.orderId existingOid) with
        | some (ex2, .ok _) => some (ex2, .error .amendQtyAlreadyFilled)
        | _ => none
      else
        let o2 := { o with remainingQuantity := newLeaves }
        match ex1.cancel_limit_order (.orderId existingOid) with
        | some (ex2, .ok _) => ex2.submit_limit_order o2
        | some (ex2, .error e) => some (ex2, .error e)
        | none => none

/-- Source `Exchange::fill_limit_order`: maker fee, fill event, order-margin
removal (full fill) or residual update (partial fill), event push, position
change, and the final order-margin rebalance under the new position. -/
def Exchange.fill_limit_order (ex : Exchange) (o : PendingLimitOrder)
    (filledQty : ℚ) : Option Exchange :=
  let fee := qmul (qmul filledQty o.limitPrice) ex.config.feeMaker
  let bal1 := ex.balances.account_for_fee fee
  let of2 := o.fill filledQty fee
  let step2 : Option (OrderMargin × Balances) :=
    match of2.2 with
    | .fullyFilled _ _ _ =>
      match ex.orderMargin.remove (.orderId o.oid) bal1 ex.position
          ex.config.initMarginReq with
      | .ok res => some (res.2.1, res.2.2)
      | .error _ => none
    | .partlyFilled _ _ _ =>
      ex.orderMargin.fill_order of2.1 bal1 ex.position ex.config.initMarginReq
  match step2 with
  | none => none
  | some omb =>
    match ex.position.change filledQty o.limitPrice o.side omb.2
        ex.config.initMarginReq with
    | none => none
    | some pb =>
      match rebalanceOrderMargin pb.2
          (omb.1.order_margin ex.config.initMarginReq pb.1) with
      | none => none
      | some bal4 =>
        some { ex with orderMargin := omb.1, balances := bal4, position := pb.1,
                       limitOrderUpdates := ex.limitOrderUpdates ++ [of2.2] }

/-- The bid/ask fill loop of `check_active_orders`, fuel-indexed: peek the
best resting order on the fillable side, try to fill it against the trade,
stop when the trade is exhausted or no longer crosses.  Fuel exhaustion is
`none`. -/
def fillLoop (peek : OrderMargin → Option PendingLimitOrder) :
    Nat → Exchange → Trade → Option Exchange
  | 0, _, _ => none
  | Nat.succ fuel, ex, t =>
    match peek ex.orderMargin with
    | none => some ex
    | some o =>
      match t.limit_order_filled o with
      | (_, none) => some ex
      | (t2, some fe) =>
        match ex.fill_limit_order o fe.1 with
        | none => none
        | some ex2 => if fe.2 then some ex2 else fillLoop peek fuel ex2 t2

/-- Source `Exchange::check_active_orders`: clear the fill buffer; a `Bba`
cannot fill; a `Trade` walks the best-priced resting orders of the fillable
side.  The source loop is bounded by the finite active set; the fuel
`num_active + 1` is shown sufficient. -/
def Exchange.check_active_orders (ex : Exchange) (u : MarketUpdateV) :
    Option Exchange :=
  let ex0 := { ex with limitOrderUpdates := [] }
  match u with
  | .bba .. => some ex0
  | .trade t =>
    if t.can_fill_bids then
      fillLoop OrderMargin.peek_best_bid (ex0.orderMargin.num_active + 1) ex0 t
    else if t.can_fill_asks then
      fillLoop OrderMargin.peek_best_ask (ex0.orderMargin.num_active + 1) ex0 t
    else some ex0

/-- Source `Exchange::update_state`: apply the update to the market state;
on a maintenance-margin breach liquidate and return `Err(Liquidation)`;
otherwise run `check_active_orders` and return the fill-events buffer. -/
def Exchange.update_state (ex : Exchange) (u : MarketUpdateV) :
    Option (Exchange × Except Error (List LimitOrderFill)) :=
  let ex1 := { ex with marketState := ex.marketState.update_state u }
  if check_maintenance_margin_breach ex1.marketState ex1.position
      ex1.config.initMarginReq ex1.config.maintMarginReq then
    match ex1.liquidate with
    | none => none
    | some ex2 => some (ex2, .error .liquidation)
  else
    match ex1.check_active_orders u with
    | none => none
    | some ex2 => some (ex2, .ok ex2.limitOrderUpdates)

deriving instance DecidableEq for Except

/-- Concrete test configuration: min price and quantity 1, tick and step one,
maker fee 0.1%, taker fee 0.2%, IMR 10%, MMR 5%, capacity 10 orders, 100
orders per second, wallet 10000. -/
def cfgA : Config :=
  ⟨⟨1, 100000, 1, 10, 0⟩, ⟨1, 1000, 1⟩, mkRat 1 1000, mkRat 2 1000,
    mkRat 1 10, mkRat 1 20, 10, 100, 10000⟩

/-- Fresh exchange on `cfgA` after a `Bba { bid 100, ask 101, ts 1 }`. -/
def exA : Exchange :=
  ⟨cfgA, ⟨100, 101, 0, 1⟩, 0, Balances.new 10000, .neutral, ⟨[], 10⟩, [],
    ⟨100, []⟩⟩

/-- A non-marketable buy limit order at 100 (ask is 101). -/
def oA3 : NewLimitOrder := NewLimitOrder.make Side.buy 100 1

/-- A marketable buy limit order at 101 (equal to the ask). -/
def oA4 : NewLimitOrder := NewLimitOrder.make Side.buy 101 1

/-- The filled quantity carried by a fill event. -/
def fillEventQty : LimitOrderFill → ℚ
  | .partlyFilled fq _ _ => fq
  | .fullyFilled _ fq _ => fq

/-- Total filled quantity of a list of fill events. -/
def sumFilled : List LimitOrderFill → ℚ
  | [] => 0
  | e :: es => qadd (fillEventQty e) (sumFilled es)

/-- Exchange on `cfgA` with two resting buys: oid 0 for 3 at 100 and oid 1
for 4 at 99, with the matching 69.6 order margin reserved. -/
def exF : Exchange :=
  ⟨cfgA, ⟨100, 101, 0, 1⟩, 2, ⟨1000, 0, mkRat 696 10, 0, 0⟩, .neutral,
    ⟨[⟨0, 1, Side.buy, 100, 3, 3, .goodTilCrossing⟩,
      ⟨1, 1, Side.buy, 99, 4, 4, .goodTilCrossing⟩], 10⟩, [], ⟨100, []⟩⟩

/-- A sell trade of quantity 5 at 90, crossing both resting buys of `exF`. -/
def tF : Trade := ⟨2, 90, 5, Side.sell⟩

/-- Exchange state after `check_active_orders` processes `tF` on `exF`. -/
def exF2 : Exchange :=
  match exF.check_active_orders (.trade tF) with
  | some e => e
  | none => exF

/-- Exchange state after the market buy of 10 on `exA`. -/
def exC8 : Exchange :=
  match exA.submit_market_order Side.buy 10 with
  | some (e, .ok _) => e
  | _ => exA

/-- The filled market order returned by the market buy of 10 on `exA`. -/
def foC8 : FilledMarketOrder :=
  match exA.submit_market_order Side.buy 10 with
  | some (_, .ok f) => f
  | _ => ⟨0, Side.buy, 0, 0, 0⟩

/-- Exchange on `cfgA` holding `Long { qty 1, entry 101 }` with 10.1 position
margin reserved, quotes 100/101, next order id 5. -/
def exB : Exchange :=
  ⟨cfgA, ⟨100, 101, 0, 1⟩, 5, ⟨88, mkRat 101 10, 0, 0, 0⟩, .long 1 101,
    ⟨[], 10⟩, [], ⟨100, []⟩⟩

/-- Exchange state after driving the quotes down to 50/51 on `exB`
(liquidation scenario S5). -/
def exB2 : Exchange :=
  match exB.update_state (.bba 50 51 2) with
  | some (e, _) => e
  | none => exB

/-- Exchange on `cfgA` with one partially filled resting buy
(oid 0, total 2, remaining 1 at 100) and 10 order margin reserved. -/
def exE : Exchange :=
  ⟨cfgA, ⟨100, 101, 0, 1⟩, 1, ⟨90, 0, 10, 0, 0⟩, .neutral,
    ⟨[⟨0, 1, Side.buy, 100, 2, 1, .goodTilCrossing⟩], 10⟩, [], ⟨100, []⟩⟩

/-- Amend request for the resting order of `exE`: same side and price, total
quantity 3 (scenario: leaves become 1 + (3 − 2) = 2). -/
def oE : NewLimitOrder := NewLimitOrder.make Side.buy 100 3

/-- Exchange state after amending order 0 of `exE` with `oE`. -/
def exE2 : Exchange :=
  match exE.amend_limit_order 0 oE with
  | some (e, .ok _) => e
  | _ => exE

/-- The pending order returned by amending order 0 of `exE` with `oE`. -/
def pE : PendingLimitOrder :=
  match exE.amend_limit_order 0 oE with
  | some (_, .ok p) => p
  | _ => ⟨0, 0, Side.buy, 0, 0, 0, .goodTilCrossing⟩

/-- The scenario refuting the order-margin invariant after a market order:
on `exA`, market-buy 10 (`Long 10 @ 101`), rest a sell of 10 at 102 (fully
offset, zero order margin), then market-sell 10 (position back to Neutral).
Returns the final state when every step succeeds. -/
def c9run : Option Exchange :=
  match exA.submit_market_order Side.buy 10 with
  | some (e1, .ok _) =>
    match e1.submit_limit_order (NewLimitOrder.make Side.sell 102 10) with
    | some (e2, .ok _) =>
      match e2.submit_market_order Side.sell 10 with
      | some (e3, .ok _) => some e3
      | _ => none
    | _ => none
  | _ => none

/-- The final state of `c9run`. -/
def exD4 : Exchange :=
  match c9run with
  | some e => e
  | none => exA

theorem num_eq_mul_den (a : ℚ) : (a.num : ℚ) = a * a.den := by
  have h : (a.den : ℚ) ≠ 0 := by exact_mod_cast a.den_nz
  have h2 := Rat.num_div_den a
  calc (a.num : ℚ) = (a.num : ℚ) / (a.den : ℚ) * (a.den : ℚ) := by
        rw [div_mul_cancel₀ _ h]
    _ = a * a.den := by rw [h2]

theorem qadd_eq (a b : ℚ) : qadd a b = a + b := by
  unfold qadd
  rw [Rat.mkRat_eq_div]
  push_cast
  rw [div_eq_iff (by positivity), num_eq_mul_den a, num_eq_mul_den b]
  ring

theorem qsub_eq (a b : ℚ) : qsub a b = a - b := by
  unfold qsub
  rw [Rat.mkRat_eq_div]
  push_cast
  rw [div_eq_iff (by positivity), num_eq_mul_den a, num_eq_mul_den b]
  ring

theorem qmul_eq (a b : ℚ) : qmul a b = a * b := by
  unfold qmul
  rw [Rat.mkRat_eq_div]
  push_cast
  rw [div_eq_iff (by positivity), num_eq_mul_den a, num_eq_mul_den b]
  ring

theorem qneg_eq (a : ℚ) : qneg a = -a := by
  unfold qneg
  rw [Rat.mkRat_eq_div]
  push_cast
  rw [div_eq_iff (by positivity), num_eq_mul_den a]
  ring

theorem div_eq_num_den (a b : ℚ) :
    a / b = ((a.num * b.den : ℚ)) / ((a.den : ℚ) * (b.num : ℚ)) := by
  by_cases hb : b = 0
  · subst hb
    simp
  · have hbn : (b.num : ℚ) ≠ 0 := by
      exact_mod_cast fun h => hb (Rat.num_eq_zero.mp (by exact_mod_cast h))
    have had : (a.den : ℚ) ≠ 0 := by exact_mod_cast a.den_nz
    rw [div_eq_div_iff hb (by exact mul_ne_zero had hbn)]
    rw [num_eq_mul_den a, num_eq_mul_den b]
    ring

theorem qdiv_eq (a b : ℚ) : qdiv a b = a / b := by
  unfold qdiv
  rw [Rat.mkRat_eq_div, div_eq_num_den a b]
  rcases lt_trichotomy b.num 0 with hb | hb | hb
  · rw [if_pos hb]
    push_cast [Int.cast_natAbs]
    rw [abs_of_neg (show (b.num : ℚ) < 0 by exact_mod_cast hb)]
    rw [mul_neg_one, ← neg_div_neg_eq]
    ring_nf
  · rw [if_neg (by omega)]
    rw [hb]
    push_cast [hb]
    simp
  · rw [if_neg (by omega)]
    push_cast [Int.cast_natAbs]
    rw [abs_of_pos (show (0 : ℚ) < b.num by exact_mod_cast hb)]
    ring_nf

theorem minQ_eq_min (a b : ℚ) : minQ a b = min a b := by
  unfold minQ
  rcases lt_or_le b a with h | h
  · rw [if_pos h, min_eq_right h.le]
  · rw [if_neg (not_lt.mpr h), min_eq_left h]

theorem maxQ_eq_max (a b : ℚ) : maxQ a b = max a b := by
  unfold maxQ
  rcases lt_or_le a b with h | h
  · rw [if_pos h, max_eq_right h.le]
  · rw [if_neg (not_lt.mpr h), max_eq_left h]

theorem minQ_le_left (a b : ℚ) : minQ a b ≤ a := by
  unfold minQ
  split
  · exact le_of_lt (by assumption)
  · exact le_rfl

theorem limit_order_filled_isSome (t : Trade) (o : PendingLimitOrder) :
    (t.limit_order_filled o).2.isSome = t.fills_order o := by
  unfold Trade.limit_order_filled
  split <;> simp_all

theorem fills_order_iff (t : Trade) (o : PendingLimitOrder) :
    t.fills_order o = true ↔
      ((o.side = .buy ∧ t.side = .sell ∧ t.price < o.limitPrice) ∨
       (o.side = .sell ∧ t.side = .buy ∧ o.limitPrice < t.price)) := by
  unfold Trade.fills_order
  cases ho : o.side <;> cases ht : t.side <;> simp [ho, ht]

theorem limit_order_filled_some (t : Trade) (o : PendingLimitOrder) (t2 : Trade)
    (fq : ℚ) (ex : Bool) (h : t.limit_order_filled o = (t2, some (fq, ex))) :
    fq = minQ t.quantity o.remainingQuantity ∧
      t2 = { t with quantity := t.quantity - fq } ∧
      (ex = true ↔ fq = t.quantity) := by
  unfold Trade.limit_order_filled at h
  split at h
  · simp only [Prod.mk.injEq, Option.some.injEq] at h
    obtain ⟨h1, h2, h3⟩ := h
    refine ⟨h2.symm, ?_, ?_⟩
    · rw [← h1, ← h2, qsub_eq]
    · have hle : minQ t.quantity o.remainingQuantity ≤ t.quantity :=
        minQ_le_left _ _
      subst h2
      constructor
      · intro hex
        rw [← h3] at hex
        have hq : qsub t.quantity (minQ t.quantity o.remainingQuantity) ≤ 0 :=
          of_decide_eq_true hex
        rw [qsub_eq] at hq
        linarith
      · intro hfq
        rw [← h3]
        apply decide_eq_true
        show qsub t.quantity (minQ t.quantity o.remainingQuantity) ≤ 0
        rw [qsub_eq, hfq]
        linarith
  · simp at h

theorem validate_order_quantity_errs (f : QuantityFilter) (q : ℚ) (e : Error)
    (h : f.validate_order_quantity q = .error e) :
    e = .qtyTooLow ∨ e = .qtyTooHigh ∨ e = .qtyNotMultipleOfStep := by
  unfold QuantityFilter.validate_order_quantity at h
  split at h
  · exact Or.inl (by injection h with h; exact h.symm)
  · split at h
    · exact Or.inr (Or.inl (by injection h with h; exact h.symm))
    · split at h
      · exact Or.inr (Or.inr (by injection h with h; exact h.symm))
      · exact absurd h (by simp)

theorem validate_limit_price_errs (f : PriceFilter) (p mid : ℚ) (e : Error)
    (h : f.validate_limit_price p mid = .error e) :
    e = .priceTooLow ∨ e = .priceTooHigh ∨ e = .priceNotMultipleOfTick ∨
      e = .priceOutOfBand := by
  unfold PriceFilter.validate_limit_price at h
  split at h
  · exact Or.inl (by injection h with h; exact h.symm)
  · split at h
    · exact Or.inr (Or.inl (by injection h with h; exact h.symm))
    · split at h
      · exact Or.inr (Or.inr (Or.inl (by injection h with h; exact h.symm)))
      · split at h
        · exact Or.inr (Or.inr (Or.inr (by injection h with h; exact h.symm)))
        · split at h
          · exact Or.inr (Or.inr (Or.inr (by injection h with h; exact h.symm)))
          · exact absurd h (by simp)

theorem try_insert_errs (om : OrderMargin) (o : PendingLimitOrder)
    (bal : Balances) (pos : Position) (imr : ℚ) (e : Error)
    (h : om.try_insert o bal pos imr = .error e) :
    e = .maxActiveOrders ∨ e = .notEnoughAvailableBalance := by
  unfold OrderMargin.try_insert at h
  split at h
  · exact Or.inl (by injection h with h; exact h.symm)
  · simp only [] at h
    split at h
    · exact absurd h (by simp)
    · exact Or.inr (by injection h with h; exact h.symm)

theorem submit_limit_order_ok (ex : Exchange) (o : NewLimitOrder)
    (ex2 : Exchange) (p : PendingLimitOrder)
    (h : ex.submit_limit_order o = some (ex2, .ok p)) :
    p = o.into_pending ex.nextOrderId ex.marketState.currentTsNs ∧
    ex2.orderMargin.activeOrders = ex.orderMargin.activeOrders ++ [p] ∧
    ex2.orderMargin.maxActive = ex.orderMargin.maxActive ∧
    ex2.nextOrderId = ex.nextOrderId + 1 ∧
    ex2.marketState = ex.marketState ∧
    ex2.position = ex.position ∧
    ex2.config = ex.config ∧
    ex2.limitOrderUpdates = ex.limitOrderUpdates := by
  unfold Exchange.submit_limit_order at h
  simp only [] at h
  split at h
  · simp at h
  · split at h
    · simp at h
    · split at h
      · simp at h
      · split at h
        · simp at h
        · split at h
          · simp at h
          · split at h
            · simp at h
            · rename_i heq
              simp only [Option.some.injEq, Prod.mk.injEq, Except.ok.injEq] at h
              obtain ⟨hex, hp⟩ := h
              subst hex
              subst hp
              unfold Exchange.append_limit_order at heq
              split at heq
              · simp at heq
              · rename_i omb hins
                simp only [Except.ok.injEq] at heq
                subst heq
                unfold OrderMargin.try_insert at hins
                simp only [] at hins
                split at hins
                · simp at hins
                · split at hins
                  · simp only [Except.ok.injEq] at hins
                    subst hins
                    simp
                  · simp at hins

theorem submit_limit_order_gtc (ex : Exchange) (o : NewLimitOrder)
    (ex2 : Exchange) (lp ap : ℚ)
    (h : ex.submit_limit_order o =
      some (ex2, .error (.goodTillCrossingRejected lp ap))) :
    ex2.orderMargin = ex.orderMargin ∧ ex2.balances = ex.balances ∧
    ex2.position = ex.position ∧ ex2.marketState = ex.marketState ∧
    ex2.limitOrderUpdates = ex.limitOrderUpdates ∧ ex2.config = ex.config ∧
    ex2.nextOrderId = ex.nextOrderId + 1 ∧
    ex2.orderRateLimiter =
      (ex.orderRateLimiter.aquire ex.marketState.currentTsNs).1 ∧
    isMarketable ex.marketState o.side o.limitPrice = true ∧
    lp = o.limitPrice := by
  unfold Exchange.submit_limit_order at h
  simp only [] at h
  split at h
  · simp at h
  · split at h
    · rename_i e heq
      simp only [Option.some.injEq, Prod.mk.injEq, Except.error.injEq] at h
      rcases validate_order_quantity_errs _ _ _ heq with h1 | h1 | h1 <;> simp_all
    · split at h
      · rename_i e heq
        simp only [Option.some.injEq, Prod.mk.injEq, Except.error.injEq] at h
        rcases validate_limit_price_errs _ _ _ _ heq with h1 | h1 | h1 | h1 <;>
          simp_all
      · split at h
        · simp at h
        · split at h
          · rename_i hm
            simp only [Option.some.injEq, Prod.mk.injEq, Except.error.injEq,
              Error.goodTillCrossingRejected.injEq] at h
            obtain ⟨hex, hlp, _⟩ := h
            subst hex
            refine ⟨rfl, rfl, rfl, rfl, rfl, rfl, rfl, rfl, ?_, hlp.symm⟩
            simpa using hm
          · split at h
            · rename_i e heq
              simp only [Option.some.injEq, Prod.mk.injEq, Except.error.injEq] at h
              obtain ⟨hex, he⟩ := h
              unfold Exchange.append_limit_order at heq
              split at heq
              · rename_i e1 hti
                simp only [Except.error.injEq] at heq
                rcases try_insert_errs _ _ _ _ _ _ hti with h1 | h1 <;> simp_all
              · simp at heq
            · simp at h

theorem rePricing_eq (r : RePricing) : r = .goodTilCrossing := by
  cases r
  rfl

theorem rebalance_succeeds (bal : Balances) (newReq : ℚ)
    (h : qsub newReq bal.orderMargin ≤ bal.available) :
    ∃ b2, rebalanceOrderMargin bal newReq = some b2 := by
  unfold rebalanceOrderMargin
  split
  · exact ⟨_, rfl⟩
  · split
    · exact ⟨_, rfl⟩
    · unfold Balances.try_reserve_order_margin
      rw [if_pos h]
      exact ⟨_, rfl⟩

/-- C1: A `Trade` fills a pending limit order iff the sides are opposite and
the trade price strictly crosses the limit price; the filled quantity is
`min(trade.quantity, order.remaining_quantity)`, and the exhausted flag is true
iff the fill consumes the trade's whole quantity. -/
theorem c1_trade_fill_rule (t : Trade) (o : PendingLimitOrder) :
    (((t.limit_order_filled o).2.isSome = true) ↔
      ((o.side = .buy ∧ t.side = .sell ∧ t.price < o.limitPrice) ∨
       (o.side = .sell ∧ t.side = .buy ∧ o.limitPrice < t.price))) ∧
    (∀ t2 fq ex, t.limit_order_filled o = (t2, some (fq, ex)) →
      fq = min t.quantity o.remainingQuantity ∧ (ex = true ↔ fq = t.quantity)) := by
  constructor
  · rw [limit_order_filled_isSome]
    exact fills_order_iff t o
  · intro t2 fq ex h
    obtain ⟨h1, _, h3⟩ := limit_order_filled_some t o t2 fq ex h
    exact ⟨h1.trans (minQ_eq_min _ _), h3⟩

/-- Concrete witness for `c1_trade_fill_rule`: a sell trade at 99 for quantity 5
against a resting buy at limit 100 with 3 remaining fills 3 and is not
exhausted. -/
theorem c1_trade_fill_rule_witness :
    ((⟨0, 99, 5, Side.sell⟩ : Trade).limit_order_filled
        ⟨0, 0, Side.buy, 100, 3, 3, .goodTilCrossing⟩ =
      (⟨0, 99, 2, Side.sell⟩, some ((3 : ℚ), false))) ∧
    ((3 : ℚ) = min (5 : ℚ) 3 ∧ (false = true ↔ (3 : ℚ) = 5)) := by
  constructor
  · decide
  · exact (c1_trade_fill_rule ⟨0, 99, 5, Side.sell⟩
      ⟨0, 0, Side.buy, 100, 3, 3, .goodTilCrossing⟩).2
      ⟨0, 99, 2, Side.sell⟩ 3 false (by decide)

/-- C3: under passing rate limit, quantity filter, price filter and risk check
(plus capacity room and the order-margin invariant), `submit_limit_order`
returns `GoodTillCrossingRejected` iff the order is marketable (Buy:
`limit ≥ ask`; Sell: `limit ≤ bid`); a non-marketable order is inserted into
the order-margin set and returned as Pending. -/
theorem c3_gtc_reject_iff_marketable (ex : Exchange) (o : NewLimitOrder)
    (h_rl : (ex.orderRateLimiter.aquire ex.marketState.currentTsNs).2 = true)
    (h_qf : ex.config.quantityFilter.validate_order_quantity
      o.remainingQuantity = .ok ())
    (h_pf : ex.config.priceFilter.validate_limit_price o.limitPrice
      ex.marketState.midPrice = .ok ())
    (h_risk : check_limit_order ex.position
      (o.into_pending ex.nextOrderId ex.marketState.currentTsNs)
      ex.balances.available ex.orderMargin ex.config.initMarginReq = true)
    (h_cap : ex.orderMargin.num_active < ex.orderMargin.maxActive)
    (h_inv : ex.balances.orderMargin =
      ex.orderMargin.order_margin ex.config.initMarginReq ex.position) :
    ((∃ ex2 lp ap, ex.submit_limit_order o =
        some (ex2, .error (.goodTillCrossingRejected lp ap))) ↔
      isMarketable ex.marketState o.side o.limitPrice = true) ∧
    (isMarketable ex.marketState o.side o.limitPrice = false →
      ∃ b2, ex.submit_limit_order o = some
        ({ ex with
            orderRateLimiter :=
              (ex.orderRateLimiter.aquire ex.marketState.currentTsNs).1,
            nextOrderId := ex.nextOrderId + 1,
            orderMargin :=
              { activeOrders := ex.orderMargin.activeOrders ++
                  [o.into_pending ex.nextOrderId ex.marketState.currentTsNs],
                maxActive := ex.orderMargin.maxActive },
            balances := b2 },
          .ok (o.into_pending ex.nextOrderId ex.marketState.currentTsNs))) := by
  have h_risk2 := h_risk
  simp only [NewLimitOrder.into_pending] at h_risk2
  constructor
  · constructor
    · rintro ⟨ex2, lp, ap, heq⟩
      exact (submit_limit_order_gtc ex o ex2 lp ap heq).2.2.2.2.2.2.2.2.1
    · intro hm
      have hrun : ex.submit_limit_order o = some
          ({ ex with
              orderRateLimiter :=
                (ex.orderRateLimiter.aquire ex.marketState.currentTsNs).1,
              nextOrderId := ex.nextOrderId + 1 },
            .error (.goodTillCrossingRejected o.limitPrice
              (match o.side with
                | .buy => ex.marketState.ask
                | .sell => ex.marketState.bid))) := by
        unfold Exchange.submit_limit_order
        simp only [h_rl, h_qf, h_pf, Bool.not_true, NewLimitOrder.into_pending]
        simp only [h_risk2, Bool.not_true]
        simp only [rePricing_eq o.rePricing]
        simp only [show isMarketable ex.marketState o.side o.limitPrice = true
          from hm]
        rfl
      exact ⟨_, _, _, hrun⟩
  · intro hm
    have hriskP : qsub
        (OrderMargin.order_margin
          { activeOrders := ex.orderMargin.activeOrders ++
              [o.into_pending ex.nextOrderId ex.marketState.currentTsNs],
            maxActive := ex.orderMargin.maxActive }
          ex.config.initMarginReq ex.position)
        ex.balances.orderMargin ≤ ex.balances.available := by
      have hr := of_decide_eq_true
        ((by
          unfold check_limit_order at h_risk
          simpa using h_risk :
          decide (qsub
            (OrderMargin.order_margin
              { activeOrders := ex.orderMargin.activeOrders ++
                  [o.into_pending ex.nextOrderId ex.marketState.currentTsNs],
                maxActive := ex.orderMargin.maxActive }
              ex.config.initMarginReq ex.position)
            (ex.orderMargin.order_margin ex.config.initMarginReq ex.position) ≤
            ex.balances.available) = true))
      rw [h_inv]
      exact hr
    obtain ⟨b2, hb2⟩ := rebalance_succeeds ex.balances _ hriskP
    refine ⟨b2, ?_⟩
    unfold Exchange.submit_limit_order
    simp only [h_rl, h_qf, h_pf, Bool.not_true, NewLimitOrder.into_pending]
    simp only [h_risk2, Bool.not_true]
    simp only [rePricing_eq o.rePricing]
    simp only [show isMarketable ex.marketState o.side o.limitPrice = false
      from hm]
    unfold Exchange.append_limit_order OrderMargin.try_insert
    simp only [Bool.false_eq_true, if_false]
    rw [if_neg (not_le.mpr h_cap)]
    simp only [NewLimitOrder.into_pending] at hb2
    rw [hb2]

theorem changeBalances_feesPaid (pos : Position) (fq price : ℚ) (side : Side)
    (bal : Balances) (imr : ℚ) (b : Balances)
    (h : pos.changeBalances fq price side bal imr = some b) :
    b.feesPaid = bal.feesPaid := by
  unfold Position.changeBalances Balances.try_reserve_position_margin
    Balances.free_position_margin Balances.apply_realized_pnl at h
  cases pos <;> cases side <;> simp only [] at h <;>
    (repeat' split at h) <;> simp_all <;> rw [← h]

theorem submit_market_order_ok (ex : Exchange) (side : Side) (qty : ℚ)
    (ex2 : Exchange) (fo : FilledMarketOrder)
    (h : ex.submit_market_order side qty = some (ex2, .ok fo)) :
    fo.avgFillPrice = (match side with
      | .buy => ex.marketState.ask
      | .sell => ex.marketState.bid) ∧
    fo.quantity = qty ∧ fo.side = side ∧ fo.oid = ex.nextOrderId ∧
    ex2.position = ex.position.applyFill qty fo.avgFillPrice side ∧
    ex2.balances.feesPaid = qadd ex.balances.feesPaid
      (qmul (qmul qty fo.avgFillPrice) ex.config.feeTaker) ∧
    ex2.nextOrderId = ex.nextOrderId + 1 ∧
    ex2.marketState = ex.marketState ∧ ex2.config = ex.config ∧
    ex2.orderMargin = ex.orderMargin ∧
    ex2.limitOrderUpdates = ex.limitOrderUpdates := by
  unfold Exchange.submit_market_order at h
  simp only [] at h
  split at h
  · simp at h
  · split at h
    · simp at h
    · split at h
      · simp at h
      · split at h
        · simp at h
        · rename_i hsettle
          simp only [Option.some.injEq, Prod.mk.injEq, Except.ok.injEq] at h
          obtain ⟨hex, hfo⟩ := h
          subst hex
          subst hfo
          unfold Exchange.settle_filled_market_order at hsettle
          simp only [] at hsettle
          split at hsettle
          · simp at hsettle
          · rename_i pb hchange
            simp only [Option.some.injEq] at hsettle
            subst hsettle
            unfold Position.change at hchange
            rw [Option.map_eq_some'] at hchange
            obtain ⟨b, hcb, hfb⟩ := hchange
            subst hfb
            cases side <;>
              (refine ⟨rfl, rfl, rfl, rfl, rfl, ?_, rfl, rfl, rfl, rfl, rfl⟩;
                show (Balances.account_for_fee b _).feesPaid = _;
                unfold Balances.account_for_fee;
                simp only [];
                rw [changeBalances_feesPaid _ _ _ _ _ _ _ hcb])

/-- Concrete witness for `c3_gtc_reject_iff_marketable`: on `exA`, the
non-marketable buy at 100 is accepted and inserted. -/
theorem c3_gtc_reject_iff_marketable_witness :
    ∃ b2, exA.submit_limit_order oA3 = some
      ({ exA with
          orderRateLimiter :=
            (exA.orderRateLimiter.aquire exA.marketState.currentTsNs).1,
          nextOrderId := exA.nextOrderId + 1,
          orderMargin :=
            { activeOrders := exA.orderMargin.activeOrders ++
                [oA3.into_pending exA.nextOrderId exA.marketState.currentTsNs],
              maxActive := exA.orderMargin.maxActive },
          balances := b2 },
        .ok (oA3.into_pending exA.nextOrderId exA.marketState.currentTsNs)) :=
  (c3_gtc_reject_iff_marketable exA oA3 (by decide) (by decide) (by decide)
    (by decide) (by decide) (by decide)).2 (by decide)

/-- C4 (amended): when `submit_limit_order` rejects a marketable
`GoodTillCrossing` order, the resting orders, balances, position and market
state are unchanged, but `next_order_id` has been incremented and the rate
limiter has recorded the attempt. -/
theorem c4_gtc_rejection_state (ex : Exchange) (o : NewLimitOrder)
    (ex2 : Exchange) (lp ap : ℚ)
    (h : ex.submit_limit_order o =
      some (ex2, .error (.goodTillCrossingRejected lp ap))) :
    ex2.orderMargin = ex.orderMargin ∧ ex2.balances = ex.balances ∧
    ex2.position = ex.position ∧ ex2.marketState = ex.marketState ∧
    ex2.nextOrderId = ex.nextOrderId + 1 ∧
    ex2.orderRateLimiter =
      (ex.orderRateLimiter.aquire ex.marketState.currentTsNs).1 := by
  obtain ⟨h1, h2, h3, h4, _, _, h7, h8, _, _⟩ :=
    submit_limit_order_gtc ex o ex2 lp ap h
  exact ⟨h1, h2, h3, h4, h7, h8⟩

/-- Counterexample to C4 as stated: on `exA` (scenario S3), the rejected
marketable buy at 101 leaves `next_order_id` incremented and the rate limiter
advanced, so the exchange state is not unchanged. -/
theorem c4_counterexample :
    exA.submit_limit_order oA4 = some
      ({ exA with
          orderRateLimiter := { ordersPerSecond := 100, timestamps := [1] },
          nextOrderId := 1 },
        .error (.goodTillCrossingRejected 101 101)) ∧
    (1 : Nat) ≠ exA.nextOrderId ∧
    ({ ordersPerSecond := 100, timestamps := [1] } : OrderRateLimiter) ≠
      exA.orderRateLimiter := by
  exact ⟨by decide, by decide, by decide⟩

/-- Concrete witness for `c4_gtc_rejection_state` at `exA` and the marketable
buy at 101. -/
theorem c4_gtc_rejection_state_witness :
    ({ exA with
        orderRateLimiter := { ordersPerSecond := 100, timestamps := [1] },
        nextOrderId := 1 } : Exchange).orderMargin = exA.orderMargin ∧
    ({ exA with
        orderRateLimiter := { ordersPerSecond := 100, timestamps := [1] },
        nextOrderId := 1 } : Exchange).balances = exA.balances ∧
    ({ exA with
        orderRateLimiter := { ordersPerSecond := 100, timestamps := [1] },
        nextOrderId := 1 } : Exchange).position = exA.position ∧
    ({ exA with
        orderRateLimiter := { ordersPerSecond := 100, timestamps := [1] },
        nextOrderId := 1 } : Exchange).marketState = exA.marketState ∧
    ({ exA with
        orderRateLimiter := { ordersPerSecond := 100, timestamps := [1] },
        nextOrderId := 1 } : Exchange).nextOrderId = exA.nextOrderId + 1 ∧
    ({ exA with
        orderRateLimiter := { ordersPerSecond := 100, timestamps := [1] },
        nextOrderId := 1 } : Exchange).orderRateLimiter =
      (exA.orderRateLimiter.aquire exA.marketState.currentTsNs).1 :=
  c4_gtc_rejection_state exA oA4 _ 101 101 (by decide)

/-- C6: when the rate limit passes and the lookup of `existing_oid` on the new
order's side finds no active order, `amend_limit_order` returns
`OrderNoLongerActive` if `existing_oid < next_order_id`, else
`OrderIdNotFound`, advancing only the rate limiter. -/
theorem c6_amend_missing_order (ex : Exchange) (oid : Nat) (o : NewLimitOrder)
    (h_rl : (ex.orderRateLimiter.aquire ex.marketState.currentTsNs).2 = true)
    (h_missing : ex.orderMargin.get_by_id oid o.side = none) :
    ex.amend_limit_order oid o = some
      ({ ex with orderRateLimiter :=
          (ex.orderRateLimiter.aquire ex.marketState.currentTsNs).1 },
        .error (if oid < ex.nextOrderId then .orderNoLongerActive
          else .orderIdNotFound oid)) := by
  unfold Exchange.amend_limit_order
  simp only [h_rl, Bool.not_true, Bool.false_eq_true, if_false]
  simp only [h_missing]
  rcases Nat.lt_or_ge oid ex.nextOrderId with hlt | hge
  · rw [if_pos hlt, if_pos hlt]
  · rw [if_neg (Nat.not_lt.mpr hge), if_neg (Nat.not_lt.mpr hge)]

/-- Concrete witness for `c6_amend_missing_order`: amending the unknown order
id 7 on `exA` yields `OrderIdNotFound`. -/
theorem c6_amend_missing_order_witness :
    exA.amend_limit_order 7 oA3 = some
      ({ exA with orderRateLimiter :=
          (exA.orderRateLimiter.aquire exA.marketState.currentTsNs).1 },
        .error (if 7 < exA.nextOrderId then .orderNoLongerActive
          else .orderIdNotFound 7)) :=
  c6_amend_missing_order exA 7 oA3 (by decide) (by decide)

/-- C8: an accepted market order fills at the current ask (Buy) or bid (Sell);
settlement changes the position by the full quantity at that price and
accounts a fee of `quantity · fill_price · taker_fee`; the returned order is
Filled at that price. -/
theorem c8_market_order_fill (ex : Exchange) (side : Side) (qty : ℚ)
    (ex2 : Exchange) (fo : FilledMarketOrder)
    (h : ex.submit_market_order side qty = some (ex2, .ok fo)) :
    fo.avgFillPrice = (match side with
      | Side.buy => ex.marketState.ask
      | Side.sell => ex.marketState.bid) ∧
    fo.quantity = qty ∧
    ex2.position = ex.position.applyFill qty fo.avgFillPrice side ∧
    ex2.balances.feesPaid =
      ex.balances.feesPaid + qty * fo.avgFillPrice * ex.config.feeTaker := by
  obtain ⟨h1, h2, _, _, h5, h6, _⟩ := submit_market_order_ok ex side qty ex2 fo h
  refine ⟨h1, h2, h5, ?_⟩
  rw [h6, qadd_eq, qmul_eq, qmul_eq]

/-- Concrete witness for `c8_market_order_fill`: the market buy of 10 on `exA`
fills at the ask 101. -/
theorem c8_market_order_fill_witness :
    foC8.avgFillPrice = (match Side.buy with
      | Side.buy => exA.marketState.ask
      | Side.sell => exA.marketState.bid) ∧
    foC8.quantity = 10 ∧
    exC8.position = exA.position.applyFill 10 foC8.avgFillPrice Side.buy ∧
    exC8.balances.feesPaid =
      exA.balances.feesPaid + 10 * foC8.avgFillPrice * exA.config.feeTaker :=
  c8_market_order_fill exA Side.buy 10 exC8 foC8 (by decide)

theorem liquidate_neutral (ex : Exchange) (ex2 : Exchange)
    (h : ex.liquidate = some ex2) : ex2.position = .neutral := by
  unfold Exchange.liquidate at h
  split at h
  · rename_i q e hpos
    split at h
    · rename_i ex3 fo heq
      simp only [Option.some.injEq] at h
      subst h
      obtain ⟨_, _, _, _, h5, _⟩ := submit_market_order_ok ex Side.sell q ex3 fo heq
      rw [h5, hpos]
      unfold Position.applyFill
      simp [lt_irrefl]
    · simp at h
  · rename_i q e hpos
    split at h
    · rename_i ex3 fo heq
      simp only [Option.some.injEq] at h
      subst h
      obtain ⟨_, _, _, _, h5, _⟩ := submit_market_order_ok ex Side.buy q ex3 fo heq
      rw [h5, hpos]
      unfold Position.applyFill
      simp [lt_irrefl]
    · simp at h
  · simp at h

/-- C2: when the maintenance-margin check on the updated market state reports
a breach, `update_state` force-closes the position (Neutral afterwards) and
returns `Err(Liquidation)`; with no breach it returns `Ok` with the fill-events
buffer. -/
theorem c2_liquidation_update_state (ex : Exchange) (u : MarketUpdateV) :
    (check_maintenance_margin_breach (ex.marketState.update_state u)
        ex.position ex.config.initMarginReq ex.config.maintMarginReq = true →
      ∀ ex2 r, ex.update_state u = some (ex2, r) →
        r = .error .liquidation ∧ ex2.position = .neutral) ∧
    (check_maintenance_margin_breach (ex.marketState.update_state u)
        ex.position ex.config.initMarginReq ex.config.maintMarginReq = false →
      ∀ ex2 r, ex.update_state u = some (ex2, r) →
        r = .ok ex2.limitOrderUpdates) := by
  constructor
  · intro hb ex2 r h
    unfold Exchange.update_state at h
    simp only [] at h
    rw [hb] at h
    simp only [if_true] at h
    split at h
    · simp at h
    · rename_i ex3 hliq
      simp only [Option.some.injEq, Prod.mk.injEq] at h
      obtain ⟨hex, hr⟩ := h
      subst hex
      exact ⟨hr.symm, liquidate_neutral _ _ hliq⟩
  · intro hb ex2 r h
    unfold Exchange.update_state at h
    simp only [] at h
    rw [hb] at h
    simp only [Bool.false_eq_true, if_false] at h
    split at h
    · simp at h
    · rename_i ex3 hcao
      simp only [Option.some.injEq, Prod.mk.injEq] at h
      obtain ⟨hex, hr⟩ := h
      subst hex
      exact hr.symm

/-- Concrete witness for `c2_liquidation_update_state`: dropping the quotes to
50/51 on `exB` liquidates the Long 1 @ 101 position. -/
theorem c2_liquidation_update_state_witness :
    (Except.error Error.liquidation :
        Except Error (List LimitOrderFill)) = .error .liquidation ∧
    exB2.position = .neutral :=
  (c2_liquidation_update_state exB (.bba 50 51 2)).1 (by decide) exB2
    (.error .liquidation) (by decide)

theorem removeFirstById_spec (l : List PendingLimitOrder) :
    ∀ (oid : Nat) (o : PendingLimitOrder) (rest : List PendingLimitOrder),
      removeFirstById oid l = some (o, rest) →
      o.oid = oid ∧ o ∈ l ∧ rest.length + 1 = l.length ∧
      List.Sublist (rest.map PendingLimitOrder.oid)
        (l.map PendingLimitOrder.oid) := by
  induction l with
  | nil =>
    intro oid o rest h
    simp [removeFirstById] at h
  | cons x xs ih =>
    intro oid o rest h
    unfold removeFirstById at h
    split at h
    · rename_i hx
      simp only [Option.some.injEq, Prod.mk.injEq] at h
      obtain ⟨ho, hrest⟩ := h
      subst ho
      subst hrest
      exact ⟨hx, List.mem_cons_self _ _, rfl, by simp⟩
    · rename_i hx
      split at h
      · simp at h
      · rename_i r os2 hrec
        simp only [Option.some.injEq, Prod.mk.injEq] at h
        obtain ⟨ho, hrest⟩ := h
        subst ho
        subst hrest
        obtain ⟨h1, h2, h3, h4⟩ := ih _ _ _ hrec
        refine ⟨h1, List.mem_cons_of_mem _ h2, by simp [← h3], ?_⟩
        simpa using List.Sublist.cons₂ x.oid h4

theorem removeFirstById_rest_oid (l : List PendingLimitOrder) :
    ∀ (oid : Nat) (o : PendingLimitOrder) (rest : List PendingLimitOrder),
      removeFirstById oid l = some (o, rest) →
      (l.map PendingLimitOrder.oid).Nodup →
      ∀ o' ∈ rest, o'.oid ≠ oid := by
  induction l with
  | nil =>
    intro oid o rest h
    simp [removeFirstById] at h
  | cons x xs ih =>
    intro oid o rest h hnd
    unfold removeFirstById at h
    simp only [List.map_cons, List.nodup_cons] at hnd
    obtain ⟨hx_notin, hnd_xs⟩ := hnd
    split at h
    · rename_i hx
      simp only [Option.some.injEq, Prod.mk.injEq] at h
      obtain ⟨_, hrest⟩ := h
      subst hrest
      intro o' ho' heq
      exact hx_notin (by
        rw [hx, ← heq]
        exact List.mem_map_of_mem _ ho')
    · rename_i hx
      split at h
      · simp at h
      · rename_i r os2 hrec
        simp only [Option.some.injEq, Prod.mk.injEq] at h
        obtain ⟨_, hrest⟩ := h
        subst hrest
        intro o' ho'
        rcases List.mem_cons.mp ho' with rfl | hmem
        · exact hx
        · exact ih oid r os2 hrec hnd_xs o' hmem

theorem get_by_id_mem (om : OrderMargin) (oid : Nat) (side : Side)
    (existing : PendingLimitOrder)
    (h : om.get_by_id oid side = some existing) :
    existing ∈ om.activeOrders ∧ existing.oid = oid := by
  unfold OrderMargin.get_by_id at h
  have h1 := List.mem_of_find?_eq_some h
  have h2 := List.find?_some h
  simp only [Bool.and_eq_true, decide_eq_true_eq] at h2
  exact ⟨h1, h2.1⟩

theorem cancel_ok_spec (ex : Exchange) (oid : Nat) (ex2 : Exchange)
    (o : PendingLimitOrder)
    (h : ex.cancel_limit_order (.orderId oid) = some (ex2, .ok o)) :
    ∃ rest, removeFirstById oid ex.orderMargin.activeOrders = some (o, rest) ∧
      ex2.orderMargin.activeOrders = rest ∧
      ex2.orderMargin.maxActive = ex.orderMargin.maxActive ∧
      ex2.nextOrderId = ex.nextOrderId ∧ ex2.marketState = ex.marketState ∧
      ex2.position = ex.position ∧ ex2.config = ex.config ∧
      ex2.orderRateLimiter =
        (ex.orderRateLimiter.aquire ex.marketState.currentTsNs).1 := by
  unfold Exchange.cancel_limit_order at h
  simp only [] at h
  split at h
  · simp at h
  · split at h
    · simp at h
    · rename_i res hrem
      split at h
      · simp at h
      · simp only [Option.some.injEq, Prod.mk.injEq, Except.ok.injEq] at h
        obtain ⟨hex, ho⟩ := h
        subst hex
        subst ho
        unfold OrderMargin.remove at hrem
        split at hrem
        rename_i a heqc
        injection heqc with heqc
        subst heqc
        split at hrem
        · simp at hrem
        · rename_i o1 rest hrf
          simp only [] at hrem
          split at hrem
          · rename_i b2 hrb
            simp only [Except.ok.injEq] at hrem
            subst hrem
            exact ⟨rest, hrf, rfl, rfl, rfl, rfl, rfl, rfl, rfl⟩
          · simp at hrem

/-- C5: amending an active order with id `oid` computes
`qty_delta = new.total − existing.total` and
`new_leaves = existing.remaining + qty_delta`; if `new_leaves ≤ 0` the
existing order is cancelled and `AmendQtyAlreadyFilled` returned; otherwise,
on Ok, `oid` is no longer active and a freshly assigned larger order id is
active with `total_quantity = new.total_quantity` and
`remaining_quantity = new_leaves`. -/
theorem c5_amend_limit_order (ex : Exchange) (oid : Nat) (o : NewLimitOrder)
    (existing : PendingLimitOrder)
    (h_rl : (ex.orderRateLimiter.aquire ex.marketState.currentTsNs).2 = true)
    (h_found : ex.orderMargin.get_by_id oid o.side = some existing)
    (h_nodup : (ex.orderMargin.activeOrders.map PendingLimitOrder.oid).Nodup)
    (h_lt : ∀ o' ∈ ex.orderMargin.activeOrders, o'.oid < ex.nextOrderId) :
    (qadd existing.remainingQuantity
        (qsub o.totalQuantity existing.totalQuantity) ≤ 0 →
      ∀ ex2 r, ex.amend_limit_order oid o = some (ex2, r) →
        r = .error .amendQtyAlreadyFilled ∧
        ∀ o' ∈ ex2.orderMargin.activeOrders, o'.oid ≠ oid) ∧
    (∀ ex2 p, ex.amend_limit_order oid o = some (ex2, .ok p) →
      p.oid = ex.nextOrderId ∧ oid < p.oid ∧
      p.totalQuantity = o.totalQuantity ∧
      p.remainingQuantity = qadd existing.remainingQuantity
        (qsub o.totalQuantity existing.totalQuantity) ∧
      p ∈ ex2.orderMargin.activeOrders ∧
      ∀ o' ∈ ex2.orderMargin.activeOrders, o'.oid = oid → o' = p) := by
  have hoidlt : oid < ex.nextOrderId := by
    obtain ⟨hmem, hoid⟩ := get_by_id_mem _ _ _ _ h_found
    rw [← hoid]
    exact h_lt existing hmem
  constructor
  · intro h_le ex2 r h
    unfold Exchange.amend_limit_order at h
    simp only [] at h
    rw [h_rl] at h
    simp only [Bool.not_true, Bool.false_eq_true, if_false] at h
    simp only [h_found] at h
    rw [if_pos h_le] at h
    split at h
    · rename_i ex2c oc heqc
      simp only [Option.some.injEq, Prod.mk.injEq] at h
      obtain ⟨hex, hr⟩ := h
      subst hex
      obtain ⟨rest, hrf, hact, _⟩ := cancel_ok_spec _ _ _ _ heqc
      refine ⟨hr.symm, ?_⟩
      rw [hact]
      exact removeFirstById_rest_oid _ _ _ _ hrf h_nodup
    · simp at h
  · intro ex2 p h
    unfold Exchange.amend_limit_order at h
    simp only [] at h
    rw [h_rl] at h
    simp only [Bool.not_true, Bool.false_eq_true, if_false] at h
    simp only [h_found] at h
    split at h
    · split at h
      · simp at h
      · simp at h
    · split at h
      · rename_i ex2c oc heqc
        obtain ⟨rest, hrf, hact, hmax, hnid, hms, hpos, hcfg, hrl2⟩ :=
          cancel_ok_spec _ _ _ _ heqc
        obtain ⟨hp, hact2, _, _, _, _, _, _⟩ := submit_limit_order_ok _ _ _ _ h
        have hrest_ne := removeFirstById_rest_oid _ _ _ _ hrf h_nodup
        have hpoid : p.oid = ex.nextOrderId := by
          rw [hp, hnid]
          rfl
        refine ⟨hpoid, ?_, ?_, ?_, ?_, ?_⟩
        · rw [hpoid]
          exact hoidlt
        · rw [hp]
          rfl
        · rw [hp]
          rfl
        · rw [hact2, hact]
          simp
        · intro o' ho' hoid'
          rw [hact2, hact] at ho'
          rcases List.mem_append.mp ho' with hin | hin
          · exact absurd hoid' (hrest_ne o' hin)
          · simpa using hin
      · simp at h
      · simp at h

/-- Concrete witness for `c5_amend_limit_order`: amending `exE`'s order 0
(total 2, remaining 1) to total 3 yields a fresh order with id 1 and
remaining 2. -/
theorem c5_amend_limit_order_witness :
    pE.oid = exE.nextOrderId ∧ 0 < pE.oid ∧
    pE.totalQuantity = oE.totalQuantity ∧
    pE.remainingQuantity = qadd (1 : ℚ) (qsub 3 2) ∧
    pE ∈ exE2.orderMargin.activeOrders ∧
    (∀ o' ∈ exE2.orderMargin.activeOrders, o'.oid = 0 → o' = pE) :=
  (c5_amend_limit_order exE 0 oE ⟨0, 1, Side.buy, 100, 2, 1, .goodTilCrossing⟩
    (by decide) (by decide) (by decide) (by decide)).2 exE2 pE (by decide)

theorem sumFilled_append (l : List LimitOrderFill) (e : LimitOrderFill) :
    sumFilled (l ++ [e]) = sumFilled l + fillEventQty e := by
  induction l with
  | nil =>
    show qadd (fillEventQty e) 0 = 0 + fillEventQty e
    rw [qadd_eq]
    ring
  | cons x xs ih =>
    show qadd (fillEventQty x) (sumFilled (xs ++ [e])) =
      qadd (fillEventQty x) (sumFilled xs) + fillEventQty e
    rw [ih, qadd_eq, qadd_eq]
    ring

theorem fill_limit_order_updates (ex : Exchange) (o : PendingLimitOrder)
    (fq : ℚ) (ex3 : Exchange) (h : ex.fill_limit_order o fq = some ex3) :
    ∃ ev, ex3.limitOrderUpdates = ex.limitOrderUpdates ++ [ev] ∧
      fillEventQty ev = fq := by
  unfold Exchange.fill_limit_order at h
  simp only [] at h
  split at h
  · simp at h
  · rename_i omb hstep
    split at h
    · simp at h
    · rename_i pb hchange
      split at h
      · simp at h
      · rename_i bal4 hrb
        simp only [Option.some.injEq] at h
        subst h
        refine ⟨_, rfl, ?_⟩
        unfold PendingLimitOrder.fill
        simp only []
        split <;> rfl

theorem fillLoop_sum_bound (peek : OrderMargin → Option PendingLimitOrder) :
    ∀ (n : Nat) (ex : Exchange) (t : Trade) (ex2 : Exchange),
      0 ≤ t.quantity → fillLoop peek n ex t = some ex2 →
      sumFilled ex2.limitOrderUpdates ≤
        sumFilled ex.limitOrderUpdates + t.quantity := by
  intro n
  induction n with
  | zero =>
    intro ex t ex2 _ h
    simp [fillLoop] at h
  | succ m ih =>
    intro ex t ex2 hq h
    unfold fillLoop at h
    split at h
    · simp only [Option.some.injEq] at h
      subst h
      linarith
    · rename_i o hpk
      split at h
      · simp only [Option.some.injEq] at h
        subst h
        linarith
      · rename_i t2 fe hfo
        split at h
        · simp at h
        · rename_i ex3 hfl
          obtain ⟨hfq, ht2, _⟩ :=
            limit_order_filled_some t o t2 fe.1 fe.2 (by rw [hfo])
          have hfle : fe.1 ≤ t.quantity := hfq ▸ minQ_le_left _ _
          obtain ⟨ev, hupd, hevq⟩ := fill_limit_order_updates ex o fe.1 ex3 hfl
          have hsum3 : sumFilled ex3.limitOrderUpdates =
              sumFilled ex.limitOrderUpdates + fe.1 := by
            rw [hupd, sumFilled_append, hevq]
          split at h
          · simp only [Option.some.injEq] at h
            subst h
            linarith
          · have ht2q : t2.quantity = t.quantity - fe.1 := by
              rw [ht2]
            have h0 : 0 ≤ t2.quantity := by
              rw [ht2q]
              linarith
            have := ih ex3 t2 ex2 h0 h
            rw [hsum3, ht2q] at this
            linarith

/-- C7 (amended): `Trade::limit_order_filled` does decrement the incoming
trade's quantity by the filled amount (the source tests assert this), and
consequently a single `check_active_orders` pass over a trade fills at most
the trade's own quantity in total. -/
theorem c7_trade_quantity_decremented :
    (∀ (t : Trade) (o : PendingLimitOrder) (t2 : Trade) (fq : ℚ) (exh : Bool),
      t.limit_order_filled o = (t2, some (fq, exh)) →
      t2.quantity = t.quantity - fq) ∧
    (∀ (ex : Exchange) (t : Trade) (ex2 : Exchange), 0 ≤ t.quantity →
      ex.check_active_orders (.trade t) = some ex2 →
      sumFilled ex2.limitOrderUpdates ≤ t.quantity) := by
  constructor
  · intro t o t2 fq exh h
    obtain ⟨_, ht2, _⟩ := limit_order_filled_some t o t2 fq exh h
    rw [ht2]
  · intro ex t ex2 hq h
    unfold Exchange.check_active_orders at h
    simp only [] at h
    have h0 : sumFilled ([] : List LimitOrderFill) = 0 := rfl
    split at h
    · have := fillLoop_sum_bound OrderMargin.peek_best_bid _ _ _ _ hq h
      rw [h0, zero_add] at this
      exact this
    · split at h
      · have := fillLoop_sum_bound OrderMargin.peek_best_ask _ _ _ _ hq h
        rw [h0, zero_add] at this
        exact this
      · simp only [Option.some.injEq] at h
        subst h
        show sumFilled [] ≤ t.quantity
        rw [h0]
        exact hq

/-- Counterexample to C7 as stated: the sell trade `tF` of quantity 5 against
the resting buy of 3 at 100 comes back with quantity 2 (it was decremented),
and the whole pass on `exF` fills a total of exactly 5, not more. -/
theorem c7_counterexample :
    (tF.limit_order_filled ⟨0, 1, Side.buy, 100, 3, 3, .goodTilCrossing⟩).1.quantity
        ≠ tF.quantity ∧
    (tF.limit_order_filled ⟨0, 1, Side.buy, 100, 3, 3, .goodTilCrossing⟩).1.quantity
        = 2 ∧
    tF.quantity = 5 ∧
    exF.check_active_orders (.trade tF) = some exF2 ∧
    sumFilled exF2.limitOrderUpdates = 5 := by
  exact ⟨by decide, by decide, by decide, by decide, by decide⟩

/-- Concrete witness for `c7_trade_quantity_decremented` on the `exF`/`tF`
scenario. -/
theorem c7_trade_quantity_decremented_witness :
    ((⟨2, 90, 2, Side.sell⟩ : Trade).quantity = (5 : ℚ) - 3) ∧
    sumFilled exF2.limitOrderUpdates ≤ tF.quantity :=
  ⟨c7_trade_quantity_decremented.1 tF
      ⟨0, 1, Side.buy, 100, 3, 3, .goodTilCrossing⟩
      ⟨2, 90, 2, Side.sell⟩ 3 false (by decide),
    c7_trade_quantity_decremented.2 exF tF exF2 (by decide) (by decide)⟩

theorem minQ_cases (a b : ℚ) : minQ a b = a ∨ minQ a b = b := by
  unfold minQ
  split
  · exact Or.inr rfl
  · exact Or.inl rfl

theorem pickBest_mem (before : PendingLimitOrder → PendingLimitOrder → Bool) :
    ∀ (l : List PendingLimitOrder) (o : PendingLimitOrder),
      pickBest before l = some o → o ∈ l := by
  intro l
  induction l with
  | nil =>
    intro o h
    simp [pickBest] at h
  | cons x xs ih =>
    intro o h
    unfold pickBest at h
    split at h
    · simp only [Option.some.injEq] at h
      subst h
      exact List.mem_cons_self _ _
    · rename_i b hb
      split at h <;> simp only [Option.some.injEq] at h <;> subst h
      · exact List.mem_cons_self _ _
      · exact List.mem_cons_of_mem _ (ih b hb)

theorem peek_best_bid_mem (om : OrderMargin) (o : PendingLimitOrder)
    (h : om.peek_best_bid = some o) : o ∈ om.activeOrders :=
  List.mem_of_mem_filter (pickBest_mem bidBefore om.bids o h)

theorem peek_best_ask_mem (om : OrderMargin) (o : PendingLimitOrder)
    (h : om.peek_best_ask = some o) : o ∈ om.activeOrders :=
  List.mem_of_mem_filter (pickBest_mem askBefore om.asks o h)

theorem not_exhausted_full_fill (t : Trade) (o : PendingLimitOrder)
    (t2 : Trade) (fq : ℚ)
    (h : t.limit_order_filled o = (t2, some (fq, false))) :
    fq = o.remainingQuantity := by
  obtain ⟨h1, _, h3⟩ := limit_order_filled_some t o t2 fq false h
  rcases minQ_cases t.quantity o.remainingQuantity with hc | hc
  · exact absurd (h3.mpr (h1.trans hc)) (by simp)
  · exact h1.trans hc

theorem fill_snd_full (o : PendingLimitOrder) (fq fee : ℚ)
    (hfq : fq = o.remainingQuantity) :
    o.fill fq fee = ({ o with remainingQuantity := qsub o.remainingQuantity fq },
      .fullyFilled o.oid fq fee) := by
  unfold PendingLimitOrder.fill
  rw [if_pos hfq]

theorem fill_limit_order_full (ex : Exchange) (o : PendingLimitOrder)
    (fq : ℚ) (ex3 : Exchange) (hfq : fq = o.remainingQuantity)
    (h : ex.fill_limit_order o fq = some ex3) :
    ∃ r rest,
      removeFirstById o.oid ex.orderMargin.activeOrders = some (r, rest) ∧
      ex3.orderMargin.activeOrders = rest ∧
      ex3.orderMargin.maxActive = ex.orderMargin.maxActive := by
  unfold Exchange.fill_limit_order at h
  simp only [] at h
  rw [fill_snd_full o fq _ hfq] at h
  simp only [] at h
  split at h
  · simp at h
  · rename_i omb hstep
    split at h
    · simp at h
    · rename_i pb hchange
      split at h
      · simp at h
      · rename_i bal4 hrb
        simp only [Option.some.injEq] at h
        subst h
        split at hstep
        · rename_i res heqr
          simp only [Option.some.injEq] at hstep
          subst hstep
          unfold OrderMargin.remove at heqr
          split at heqr
          rename_i a heqc
          injection heqc with heqc
          subst heqc
          split at heqr
          · simp at heqr
          · rename_i o1 rest hrf
            simp only [] at heqr
            split at heqr
            · rename_i b2 hrb2
              simp only [Except.ok.injEq] at heqr
              subst heqr
              exact ⟨o1, rest, hrf, rfl, rfl⟩
            · simp at heqr
        · simp at hstep

theorem fillLoop_eq_succ (peek : OrderMargin → Option PendingLimitOrder)
    (fuel : Nat) (ex : Exchange) (t : Trade) :
    fillLoop peek (fuel + 1) ex t =
      match peek ex.orderMargin with
      | none => some ex
      | some o =>
        match t.limit_order_filled o with
        | (_, none) => some ex
        | (t2, some fe) =>
          match ex.fill_limit_order o fe.1 with
          | none => none
          | some ex2 => if fe.2 then some ex2 else fillLoop peek fuel ex2 t2 :=
  rfl

theorem fillLoop_fuel_succ (peek : OrderMargin → Option PendingLimitOrder) :
    ∀ (n : Nat) (ex : Exchange) (t : Trade),
      (ex.orderMargin.activeOrders.map PendingLimitOrder.oid).Nodup →
      ex.orderMargin.activeOrders.length < n →
      fillLoop peek n ex t = fillLoop peek (n + 1) ex t := by
  intro n
  induction n with
  | zero =>
    intro ex t _ hlen
    exact absurd hlen (Nat.not_lt_zero _)
  | succ m ih =>
    intro ex t hnd hlen
    rw [fillLoop_eq_succ peek m ex t, fillLoop_eq_succ peek (m + 1) ex t]
    cases hpk : peek ex.orderMargin with
    | none => rfl
    | some o =>
      simp only []
      rcases hfo : t.limit_order_filled o with ⟨t2, fe⟩
      cases fe with
      | none => rfl
      | some fe2 =>
        simp only []
        cases hfl : ex.fill_limit_order o fe2.1 with
        | none => rfl
        | some ex3 =>
          simp only []
          cases hexh : fe2.2 with
          | true => rfl
          | false =>
            simp only [Bool.false_eq_true, if_false]
            have hfo2 : t.limit_order_filled o = (t2, some (fe2.1, false)) := by
              rw [hfo, ← hexh]
            have hfull : fe2.1 = o.remainingQuantity :=
              not_exhausted_full_fill t o t2 fe2.1 hfo2
            obtain ⟨r, rest, hrm, hact, _⟩ :=
              fill_limit_order_full ex o fe2.1 ex3 hfull hfl
            obtain ⟨_, _, hlen2, hsub⟩ := removeFirstById_spec _ _ _ _ hrm
            apply ih
            · rw [hact]
              exact hnd.sublist hsub
            · rw [hact]
              omega

theorem fillLoop_fuel_add (peek : OrderMargin → Option PendingLimitOrder) :
    ∀ (k n : Nat) (ex : Exchange) (t : Trade),
      (ex.orderMargin.activeOrders.map PendingLimitOrder.oid).Nodup →
      ex.orderMargin.activeOrders.length < n →
      fillLoop peek n ex t = fillLoop peek (n + k) ex t := by
  intro k
  induction k with
  | zero =>
    intro n ex t _ _
    rfl
  | succ j ih =>
    intro n ex t hnd hlen
    rw [ih n ex t hnd hlen, show n + (j + 1) = (n + j) + 1 by omega]
    exact fillLoop_fuel_succ peek (n + j) ex t hnd (by omega)

/-- C10: a partial fill that leaves both the resting order and the trade with
positive remaining quantity is impossible (the fill quantity is the minimum of
the two, so a non-exhausting fill consumes the whole resting order), and the
`check_active_orders` fill loop terminates: its fuel-indexed form is stable
for any fuel exceeding the number of resting orders (each continuing
iteration removes the fully filled best order), for any best-order selector
that picks among the active orders — in particular `peek_best_bid` and
`peek_best_ask`. -/
theorem c10_fill_loop_terminates :
    (∀ (t : Trade) (o : PendingLimitOrder) (t2 : Trade) (fq : ℚ) (exh : Bool),
      t.limit_order_filled o = (t2, some (fq, exh)) →
      fq < o.remainingQuantity → exh = true) ∧
    (∀ peek, (∀ om o, peek om = some o → o ∈ om.activeOrders) →
      ∀ (n m : Nat) (ex : Exchange) (t : Trade),
        (ex.orderMargin.activeOrders.map PendingLimitOrder.oid).Nodup →
        ex.orderMargin.activeOrders.length < n →
        ex.orderMargin.activeOrders.length < m →
        fillLoop peek n ex t = fillLoop peek m ex t) := by
  constructor
  · intro t o t2 fq exh h hlt
    cases hexh : exh with
    | true => rfl
    | false =>
      subst hexh
      exact absurd (not_exhausted_full_fill t o t2 fq h) (ne_of_lt hlt)
  · intro peek hpeek n m ex t hnd hn hm
    have h1 := fillLoop_fuel_add peek m n ex t hnd hn
    have h2 := fillLoop_fuel_add peek n m ex t hnd hm
    rw [h1, h2, Nat.add_comm]

/-- Concrete witness for `c10_fill_loop_terminates`: a sell trade of 2 against
a resting buy with 4 remaining is exhausted by its partial fill, and the bid
fill loop on `exF` computes the same result with fuel 3 and fuel 4. -/
theorem c10_fill_loop_terminates_witness :
    (true : Bool) = true ∧
    fillLoop OrderMargin.peek_best_bid 3 exF tF =
      fillLoop OrderMargin.peek_best_bid 4 exF tF :=
  ⟨c10_fill_loop_terminates.1 ⟨2, 90, 2, Side.sell⟩
      ⟨1, 1, Side.buy, 99, 4, 4, .goodTilCrossing⟩ ⟨2, 90, 0, Side.sell⟩ 2 true
      (by decide) (by decide),
    c10_fill_loop_terminates.2 OrderMargin.peek_best_bid peek_best_bid_mem
      3 4 exF tF (by decide) (by decide) (by decide)⟩

/-- C9 (code bug): after the `c9run` sequence — whose last public operation is
an accepted market order — the reserved `balances.order_margin` (zero) no
longer equals the order-margin requirement recomputed from the resting-order
set and the position (102: the resting sell of 10 at 102 is no longer offset
once the Long position is closed), because `settle_filled_market_order` never
rebalances order margin after the position change.  The active set is
non-empty, so invariant 3 is not the degenerate case. -/
theorem c9_order_margin_invariant_broken :
    c9run = some exD4 ∧
    exD4.balances.orderMargin = 0 ∧
    exD4.orderMargin.order_margin exD4.config.initMarginReq exD4.position =
      102 ∧
    exD4.balances.orderMargin ≠
      exD4.orderMargin.order_margin exD4.config.initMarginReq exD4.position ∧
    exD4.activeLimitOrders ≠ [] :=
  ⟨by decide, by decide, by decide, by decide, by decide⟩

end Lfest
